import Mathlib

/-!
Verification of the normalization engine of the Indic-NLP library
(`indicnlp/normalize/indic_normalize.py`) and its sentence splitter
(`indicnlp/tokenize/sentence_tokenize.py`).

Texts are shallowly embedded as `List Char`.  Python `str.replace` and the
restricted regular expressions actually used by the code (single-character
classes, two/three-atom patterns, one end-anchored pattern family) are given
executable models, and each normalizer's `normalize` method is embedded as an
ordered list of rewriting steps mirroring the source line by line.
-/

namespace IndicNLP

set_option maxRecDepth 16000

/-- Model of Python `text.replace(src, dst)`: scan left to right, replace each
non-overlapping occurrence of `src` by `dst`, resuming after the replaced
occurrence.  (Python's special behaviour on an empty `src` is never used by
the code; we let an empty pattern leave the text unchanged.) -/
def pyReplace : List Char → List Char → List Char → List Char
  | [], _, t => t
  | _ :: _, _, [] => []
  | s0 :: sr, dst, c :: cs =>
    if s0 = c ∧ sr.isPrefixOf cs then
      dst ++ pyReplace (s0 :: sr) dst (cs.drop sr.length)
    else
      c :: pyReplace (s0 :: sr) dst cs
termination_by _ _ t => t.length
decreasing_by
  · simp only [List.length_drop, List.length_cons]; omega
  · simp only [List.length_cons]; omega

/-- `hasSub p t` : `p` occurs as a contiguous substring of `t`. -/
def hasSub (p : List Char) : List Char → Bool
  | [] => p.isEmpty
  | c :: cs => p.isPrefixOf (c :: cs) || hasSub p cs

/-! ### A small pattern language covering the regexes the source uses

Every `re.sub` in the normalizer sources uses a pattern that is a short
sequence of atoms, each atom a literal character or a character class, with a
replacement template of literal characters and single-character back
references.  Malayalam additionally uses patterns of the shape
`([cls])X([^cls2]|$)` which get their own executable model `subEnd`. -/

inductive Atom where
  | lit (c : Char)
  | cls (p : Char → Bool)

def Atom.matches : Atom → Char → Bool
  | .lit c, x => x = c
  | .cls p, x => p x

inductive TmplItem where
  | lit (c : Char)
  | cap (i : Nat)

/-- Render a replacement template against the matched characters. -/
def renderTmpl (tmpl : List TmplItem) (m : List Char) : List Char :=
  tmpl.map (fun it => match it with
    | .lit c => c
    | .cap i => m.getD i (Char.ofNat 0))

/-- The literal characters of a replacement template. -/
def tmplLits (tmpl : List TmplItem) : List Char :=
  tmpl.foldr (fun it acc =>
    match it with
    | .lit c => c :: acc
    | .cap _ => acc) []

def matchPat : List Atom → List Char → Option (List Char × List Char)
  | [], u => some ([], u)
  | _ :: _, [] => none
  | a :: as, c :: cs =>
    if a.matches c then
      match matchPat as cs with
      | some (m, r) => some (c :: m, r)
      | none => none
    else none

theorem matchPat_eq {pat : List Atom} {u m rest : List Char}
    (h : matchPat pat u = some (m, rest)) : u = m ++ rest := by
  induction pat generalizing u m rest with
  | nil => simp [matchPat] at h; rw [h.1, h.2]; rfl
  | cons a as ih =>
    cases u with
    | nil => simp [matchPat] at h
    | cons c cs =>
      rw [matchPat] at h
      by_cases hm : a.matches c
      · rw [if_pos hm] at h
        cases hmp : matchPat as cs with
        | none => rw [hmp] at h; cases h
        | some p =>
          rw [hmp] at h
          cases p with
          | mk m2 r2 =>
            simp only [Option.some.injEq, Prod.mk.injEq] at h
            rw [← h.1, ← h.2, ih hmp]
            rfl
      · rw [if_neg hm] at h; cases h

theorem matchPat_rest_le {pat : List Atom} {u m rest : List Char}
    (h : matchPat pat u = some (m, rest)) : rest.length ≤ u.length := by
  rw [matchPat_eq h, List.length_append]; omega

/-- Model of `re.sub` for a non-empty pattern of atoms: leftmost,
non-overlapping matches, scanning resumes after each match (and advances one
character after a failed match position). -/
def subPat (a0 : Atom) (pat : List Atom) (tmpl : List TmplItem) : List Char → List Char
  | [] => []
  | c :: cs =>
    if a0.matches c then
      match h : matchPat pat cs with
      | some (m, rest) => renderTmpl tmpl (c :: m) ++ subPat a0 pat tmpl rest
      | none => c :: subPat a0 pat tmpl cs
    else c :: subPat a0 pat tmpl cs
termination_by t => t.length
decreasing_by
  · have := matchPat_rest_le h; simp only [List.length_cons]; omega
  · simp only [List.length_cons]; omega
  · simp only [List.length_cons]; omega

/-- Model of `re.sub` for the end-anchored Malayalam patterns
`([p1])h2([^cls]|$)`, replaced by `\1 ++ mid ++ \2`. -/
def subEnd (p1 : Char → Bool) (h2 : Char) (p3 : Char → Bool) (mid : List Char) :
    List Char → List Char
  | c :: d :: rest =>
    if p1 c ∧ d = h2 then
      match rest with
      | [] => c :: mid
      | e :: rest2 =>
        if p3 e then c :: (mid ++ e :: subEnd p1 h2 p3 mid rest2)
        else c :: subEnd p1 h2 p3 mid (d :: e :: rest2)
    else c :: subEnd p1 h2 p3 mid (d :: rest)
  | t => t
termination_by t => t.length
decreasing_by
  · simp only [List.length_cons]; omega
  · simp only [List.length_cons]; omega
  · simp only [List.length_cons]; omega

/-- Model of Python `str.translate(str.maketrans(dict))` with single-character
keys: each character is looked up in the table and replaced by the associated
string, unmapped characters pass through. -/
def translate (tbl : List (Char × List Char)) (t : List Char) : List Char :=
  t.flatMap (fun c =>
    match List.lookup c tbl with
    | some s => s
    | none => [c])

/-- Python `text.split(sep)` for a single-character separator. -/
def splitChar (sep : Char) : List Char → List (List Char)
  | [] => [[]]
  | c :: cs =>
    match splitChar sep cs with
    | [] => [[c]]
    | w :: ws => if c = sep then [] :: w :: ws else (c :: w) :: ws

/-- Python `sep.join(words)` for a single-character separator. -/
def joinChar (sep : Char) : List (List Char) → List Char
  | [] => []
  | [w] => w
  | w :: w2 :: ws => w ++ sep :: joinChar sep (w2 :: ws)

/-! ### Rewriting steps

A normalizer's `normalize` method is an ordered list of these steps. -/

inductive Step where
  | repl (src dst : List Char)
  | sub (a0 : Atom) (pat : List Atom) (tmpl : List TmplItem)
  | anchorSub (p1 : Char → Bool) (h2 : Char) (p3 : Char → Bool) (mid : List Char)
  | tr (tbl : List (Char × List Char))
  | vowelEnd (isCons : Char → Bool) (app : List Char)

def applyStep : Step → List Char → List Char
  | .repl src dst, t => pyReplace src dst t
  | .sub a0 pat tmpl, t => subPat a0 pat tmpl t
  | .anchorSub p1 h2 p3 mid, t => subEnd p1 h2 p3 mid t
  | .tr tbl, t => translate tbl t
  | .vowelEnd ic app, t =>
    joinChar (Char.ofNat 32)
      ((splitChar (Char.ofNat 32) t).map
        (fun w => if (w.getLast?.map ic).getD false then w ++ app else w))

def applySteps (L : List Step) (t : List Char) : List Char :=
  L.foldl (fun t s => applyStep s t) t

/-- The characters a step can introduce that were not in its input. -/
def introChars : Step → List Char
  | .repl _ dst => dst
  | .sub _ _ tmpl => Char.ofNat 0 :: tmplLits tmpl
  | .anchorSub _ _ _ mid => mid
  | .tr tbl => (tbl.map Prod.snd).flatten
  | .vowelEnd _ app => Char.ofNat 32 :: app

/-! ### Language information

`indicnlp/langinfo.py` is repository code that is not under `src/`; the
definitions in this section model it from the spec. -/

/-- Modelled from the spec: the supported Brahmic-script languages (the
factory's language codes that map to `BaseNormalizer`-family classes).
`langinfo.py` (outside `src/`) holds the script ranges for these codes. -/
inductive ILang where
  | hi | mr | kK | ne | sdIN | sa | ksIN | pa | gu | bn | as | or | ml | kn | ta | te | si
deriving DecidableEq, Fintype

/-- Modelled from the spec: each script's Unicode base code point
(spec §3 ScriptProfile: "its Unicode base code point", values fixed by the
Unicode standard; `langinfo.SCRIPT_RANGES` is outside `src/`). -/
def scriptBase : ILang → Nat
  | .hi | .mr | .kK | .ne | .sdIN | .sa | .ksIN => 0x900
  | .pa => 0xa00
  | .gu => 0xa80
  | .bn | .as => 0x980
  | .or => 0xb00
  | .ta => 0xb80
  | .te => 0xc00
  | .kn => 0xc80
  | .ml => 0xd00
  | .si => 0xd80

/-- Modelled from the spec: `langinfo.offset_to_char(o, lang)`, the offset
codec `char_at(offset) = base + offset` (spec §3 invariant). -/
def offsetChar (l : ILang) (o : Nat) : Char :=
  Char.ofNat (scriptBase l + o)

/-- Modelled from the spec: `langinfo.is_consonant` — the consonant slots sit
at offsets 0x15–0x39 of each script block. -/
def isConsonant (l : ILang) (c : Char) : Bool :=
  decide (scriptBase l + 0x15 ≤ c.toNat ∧ c.toNat ≤ scriptBase l + 0x39)

/-- Modelled from the spec: `langinfo.IE_LANGUAGES` — the Indo-Aryan family
(spec §4.6: convention "selected by the script's declared language family"). -/
def isIE : ILang → Bool
  | .hi | .mr | .kK | .ne | .sdIN | .sa | .ksIN | .pa | .gu | .bn | .as | .or | .si => true
  | _ => false

/-- Modelled from the spec: `langinfo.DRAVIDIAN_LANGUAGES`. -/
def isDravidian : ILang → Bool
  | .ta | .te | .kn | .ml => true
  | _ => false

/-- Character-range class `[lo-hi]` as used in the source regexes. -/
def charRange (lo hi : Nat) (c : Char) : Bool :=
  decide (lo ≤ c.toNat ∧ c.toNat ≤ hi)

def apos : Char := Char.ofNat 39

def dquote : Char := Char.ofNat 34

/-! ### `BaseNormalizer` (indic_normalize.py) -/

/-- The keyword options of the normalizer constructors (`BaseNormalizer.__init__`
plus every subclass-specific option, with the subclass defaults). -/
structure Config where
  remove_nuktas : Bool := false
  decompose_nuktas : Bool := false
  nasals_mode : String := "do_nothing"
  do_normalize_chandras : Bool := false
  do_normalize_vowel_ending : Bool := false
  do_normalize_numerals : Bool := false
  convert_numerals_to_native : Bool := false
  do_colon_to_visarga : Bool := false
  do_convert_1995_to_2002_orthography : Bool := true
  do_convert_vowels_with_apostrophe_to_short : Bool := false
  do_convert_2002_to_2009_orthography : Bool := true
  do_drop_accent : Bool := true
  do_canonicalize_addak : Bool := false
  do_canonicalize_tippi : Bool := false
  do_replace_vowel_bases : Bool := false
  do_remap_wa : Bool := false
  do_remap_assamese_chars : Bool := false
  normalize_grantha : Bool := false
  do_explicit_half_u : Bool := false
  do_canonicalize_chillus : Bool := false
  do_half_u_to_u : Bool := false
  do_correct_geminated_T : Bool := false
  do_convert_viramas_to_chillus : Bool := false
  do_convert_all_viramas_to_chillus : Bool := false
  misra_consonants_to_suddha : Bool := false
  misra_vowels_to_suddha : Bool := false

/-- `BaseNormalizer.normalize`, lines 307–316: BOM/word-joiner/soft-hyphen
removal, zero-width and no-break space replacement, ZWNJ/ZWJ removal. -/
def cleanupSteps : List Step :=
  [.repl ['\uFEFF'] [],
   .repl ['\uFFFE'] [],
   .repl ['\u2060'] [],
   .repl ['\u00AD'] [],
   .repl ['\u200B'] [' '],
   .repl ['\u00A0'] [' '],
   .repl ['\u200C'] [],
   .repl ['\u200D'] []]

/-- `NormalizerI._normalize_punctuations`. -/
def punctSteps : List Step :=
  [.repl ['\uFEFF'] [],
   .repl ['\u201E'] [dquote],
   .repl ['\u201C'] [dquote],
   .repl ['\u201D'] [dquote],
   .repl ['\u2013'] ['-'],
   .repl ['\u2014'] [' ', '-', ' '],
   .repl ['\u00B4'] [apos],
   .repl ['\u2018'] [apos],
   .repl ['\u201A'] [apos],
   .repl ['\u2019'] [apos],
   .repl [apos, apos] [dquote],
   .repl ['\u00B4', '\u00B4'] [dquote],
   .repl ['\u2026'] ['.', '.', '.']]

/-- `BaseNormalizer._init_normalize_chandras` substitution offsets. -/
def chandraSubs : List (Nat × Nat) :=
  [(0x0d, 0x0f), (0x11, 0x13), (0x45, 0x47), (0x49, 0x4b), (0x00, 0x02), (0x01, 0x02)]

def chandraSteps (l : ILang) : List Step :=
  chandraSubs.map (fun p => .repl [offsetChar l p.1] [offsetChar l p.2])

/-- `BaseNormalizer._init_to_anusvaara_strict` / `_init_to_nasal_consonants`
pattern signatures `[nasal, range-start, range-end]`. -/
def patSignatures : List (Nat × Nat × Nat) :=
  [(0x19, 0x15, 0x18),
   (0x1e, 0x1a, 0x1d),
   (0x23, 0x1f, 0x22),
   (0x28, 0x24, 0x27),
   (0x29, 0x24, 0x27),
   (0x2e, 0x2a, 0x2d)]

/-- `re.compile(r'{nasal}{halant}([{start_r}-{end_r}])')` replaced by
`'{anusvaara}\\1'`, one pattern per signature, applied in order. -/
def toAnusvaaraStrictSteps (l : ILang) : List Step :=
  patSignatures.map (fun sg =>
    .sub (.lit (offsetChar l sg.1))
      [.lit (offsetChar l 0x4d),
       .cls (charRange (scriptBase l + sg.2.1) (scriptBase l + sg.2.2))]
      [.lit (offsetChar l 0x02), .cap 2])

/-- `re.compile(r'[{nasals_list_str}]{halant}')` replaced by `'{anusvaara}'`.
The source builds `nasals_list_str` with `','.join(...)`, so the literal comma
is part of the character class. -/
def toAnusvaaraRelaxedStep (l : ILang) : Step :=
  .sub (.cls (fun c =>
      (patSignatures.map (fun sg => offsetChar l sg.1)).contains c || c == ','))
    [.lit (offsetChar l 0x4d)]
    [.lit (offsetChar l 0x02)]

/-- `re.compile(r'{anusvaara}([{start_r}-{end_r}])')` replaced by
`'{nasal}{halant}\\1'`, one pattern per signature, applied in order. -/
def toNasalConsonantsSteps (l : ILang) : List Step :=
  patSignatures.map (fun sg =>
    .sub (.lit (offsetChar l 0x02))
      [.cls (charRange (scriptBase l + sg.2.1) (scriptBase l + sg.2.2))]
      [.lit (offsetChar l sg.1), .lit (offsetChar l 0x4d), .cap 1])

/-- `BaseNormalizer._normalize_nasals` dispatch on the mode string. -/
def nasalSteps (l : ILang) (mode : String) : List Step :=
  if mode = "to_anusvaara_strict" then toAnusvaaraStrictSteps l
  else if mode = "to_anusvaara_relaxed" then [toAnusvaaraRelaxedStep l]
  else if mode = "to_nasal_consonants" then toNasalConsonantsSteps l
  else []

/-- Nasal offset of a row of `patSignatures`. -/
def sigN (i : Nat) : Nat := (patSignatures.getD i (0, 0, 0)).1

/-- Class-range start offset of a row of `patSignatures`. -/
def sigLo (i : Nat) : Nat := (patSignatures.getD i (0, 0, 0)).2.1

/-- Class-range end offset of a row of `patSignatures`. -/
def sigHi (i : Nat) : Nat := (patSignatures.getD i (0, 0, 0)).2.2

/-- A text made only of homorganic nasal+halant+consonant sequences, given as
a list of (row of `patSignatures`, consonant) pairs. -/
def renderNasal (l : ILang) (L : List (Nat × Char)) : List Char :=
  L.flatMap (fun p => [offsetChar l (sigN p.1), offsetChar l 0x4d, p.2])

/-- Intermediate state of the sequential strict-anusvara passes: the rows
selected by `f` are already converted to anusvara+consonant. -/
def mrenderF (l : ILang) (f : Nat → Bool) (L : List (Nat × Char)) : List Char :=
  L.flatMap (fun p =>
    if f p.1 then [offsetChar l 0x02, p.2]
    else [offsetChar l (sigN p.1), offsetChar l 0x4d, p.2])

/-- Intermediate state of the sequential nasal-consonant passes: the rows
selected by `f` are already converted back to nasal+halant+consonant. -/
def mrenderR (l : ILang) (f : Nat → Bool) (L : List (Nat × Char)) : List Char :=
  L.flatMap (fun p =>
    if f p.1 then [offsetChar l (sigN p.1), offsetChar l 0x4d, p.2]
    else [offsetChar l 0x02, p.2])

/-- A sequence entry is well-formed for the round trip when its row is one of
the six pattern rows other than row 4 (whose character class duplicates row
3's) and its consonant lies in the row's class. -/
def rowOk (l : ILang) (p : Nat × Char) : Prop :=
  p.1 < 6 ∧ p.1 ≠ 4
  ∧ charRange (scriptBase l + sigLo p.1) (scriptBase l + sigHi p.1) p.2 = true

instance rowOkDec (l : ILang) (p : Nat × Char) : Decidable (rowOk l p) :=
  decidable_of_iff
    (p.1 < 6 ∧ p.1 ≠ 4
      ∧ charRange (scriptBase l + sigLo p.1) (scriptBase l + sigHi p.1) p.2 = true)
    Iff.rfl

/-- The single-character replacement sources of the default pipeline
(cleanup and punctuation normalization). -/
def puSources : List Char :=
  ['\uFEFF', '\uFFFE', '\u2060', '\u00AD', '\u200B', '\u00A0', '\u200C',
   '\u200D', '\u201E', '\u201C', '\u201D', '\u2013', '\u2014', '\u00B4',
   '\u2018', '\u201A', '\u2019', '\u2026']

/-- A configuration with the relaxed nasal mode and the vowel-ending stage
enabled. -/
def relaxedVowelCfg : Config :=
  { nasals_mode := "to_anusvaara_relaxed", do_normalize_vowel_ending := true }

/-- `BaseNormalizer._init_normalize_vowel_ending`: IE languages append the
halant (offset 0x4d), Dravidian languages append the aa-matra (offset 0x3e),
to words ending in a consonant; other languages use the identity. -/
def vowelEndingStep (l : ILang) : Step :=
  if isIE l then .vowelEnd (isConsonant l) [offsetChar l 0x4d]
  else if isDravidian l then .vowelEnd (isConsonant l) [offsetChar l 0x3e]
  else .vowelEnd (isConsonant l) []

/-- `BaseNormalizer._init_normalize_numerals`: native digits at offsets
0x66–0x6f mapped to ASCII digits. -/
def nativeToHinduTable (l : ILang) : List (Char × List Char) :=
  (List.range 10).map (fun i => (offsetChar l (0x66 + i), [Char.ofNat (48 + i)]))

def hinduToNativeTable (l : ILang) : List (Char × List Char) :=
  (List.range 10).map (fun i => (Char.ofNat (48 + i), [offsetChar l (0x66 + i)]))

/-- `BaseNormalizer.normalize` lines 326–329: `if do_normalize_numerals ...
elif convert_numerals_to_native ...` -/
def numeralSteps (l : ILang) (cfg : Config) : List Step :=
  if cfg.do_normalize_numerals then [.tr (nativeToHinduTable l)]
  else if cfg.convert_numerals_to_native then [.tr (hinduToNativeTable l)]
  else []

/-- `BaseNormalizer.normalize` after the unconditional cleanup: punctuation,
optional chandras, nasals, optional vowel ending, numeral translation. -/
def baseTailSteps (l : ILang) (cfg : Config) : List Step :=
  punctSteps
    ++ (if cfg.do_normalize_chandras then chandraSteps l else [])
    ++ nasalSteps l cfg.nasals_mode
    ++ (if cfg.do_normalize_vowel_ending then [vowelEndingStep l] else [])
    ++ numeralSteps l cfg

def baseSteps (l : ILang) (cfg : Config) : List Step :=
  cleanupSteps ++ baseTailSteps l cfg

/-- `BaseNormalizer.normalize`. -/
def baseNormalize (l : ILang) (cfg : Config) (t : List Char) : List Char :=
  applySteps (baseSteps l cfg) t

/-! ### `DevanagariNormalizer` -/

/-- `DevanagariNormalizer._normalize_vowels`: two-part vowels. -/
def devaVowelSteps : List Step :=
  [.repl ['\u093e', '\u093a'] ['\u093b'],
   .repl ['\u093e', '\u0945'] ['\u0949'],
   .repl ['\u093e', '\u0946'] ['\u094a'],
   .repl ['\u093e', '\u0947'] ['\u094b'],
   .repl ['\u093e', '\u0948'] ['\u094c']]

/-- The Devanagari nukta composites `(base, composite)`, in source order. -/
def devaNuktaPairs : List (Char × Char) :=
  [('\u0928', '\u0929'), ('\u0930', '\u0931'), ('\u0933', '\u0934'),
   ('\u0915', '\u0958'), ('\u0916', '\u0959'), ('\u0917', '\u095A'),
   ('\u091C', '\u095B'), ('\u0921', '\u095C'), ('\u0922', '\u095D'),
   ('\u092B', '\u095E'), ('\u092F', '\u095F')]

/-- The three-mode nukta block shared by Devanagari/Gurmukhi/Oriya/Bengali:
remove (strip the nukta, fold composites to base), decompose (composite to
base+nukta), else recompose (base+nukta to composite). -/
def nuktaModeSteps (nukta : Char) (pairs : List (Char × Char)) (cfg : Config) :
    List Step :=
  if cfg.remove_nuktas then
    .repl [nukta] [] :: pairs.map (fun p => .repl [p.2] [p.1])
  else if cfg.decompose_nuktas then
    pairs.map (fun p => .repl [p.2] [p.1, nukta])
  else
    pairs.map (fun p => .repl [p.1, nukta] [p.2])

/-- The colon-to-visarga correction `re.sub(r'([block]):', '\\1{visarga}')`. -/
def colonStep (lo hi : Nat) (vis : Char) : Step :=
  .sub (.cls (charRange lo hi)) [.lit ':'] [.cap 0, .lit vis]

def colonSteps (cfg : Config) (lo hi : Nat) (vis : Char) : List Step :=
  if cfg.do_colon_to_visarga then [colonStep lo hi vis] else []

/-- `DevanagariNormalizer.normalize`. -/
def devanagariSteps (l : ILang) (cfg : Config) : List Step :=
  baseSteps l cfg
    ++ devaVowelSteps
    ++ nuktaModeSteps '\u093C' devaNuktaPairs cfg
    ++ [.repl ['\u007c'] ['\u0964']]
    ++ colonSteps cfg 0x900 0x97f '\u0903'

def devanagariNormalize (l : ILang) (cfg : Config) (t : List Char) : List Char :=
  applySteps (devanagariSteps l cfg) t

/-! ### `KashmiriDevanagariNormalizer` -/

/-- The class `[\u0915-\u0939\u0958-\u095f\u093c]`. -/
def kashmiriConsNukta (c : Char) : Bool :=
  charRange 0x915 0x939 c || charRange 0x958 0x95f c || c == '\u093c'

/-- `KashmiriDevanagariNormalizer._1995_to_2002_orthography`. -/
def kashmiri1995to2002Steps (short : Bool) : List Step :=
  [.repl ['\u0941', '\u0945'] ['\u0956'],
   .repl ['\u0945', '\u0941'] ['\u0956'],
   .repl ['\u0942', '\u0945'] ['\u0957'],
   .repl ['\u0945', '\u0942'] ['\u0957'],
   .sub (.cls kashmiriConsNukta) [.lit '\u093d'] [.cap 0, .lit '\u0945']]
  ++ (if short then
        [.repl ['\u0947', apos] ['\u0946'],
         .repl ['\u094b', apos] ['\u094a'],
         .repl ['\u094c', apos] ['\u094f']]
      else [])
  ++ [.repl ['\u0909', '\u0945'] ['\u0976'],
      .repl ['\u090a', '\u0945'] ['\u0977'],
      .repl ['\u093d'] ['\u0972']]
  ++ (if short then
        [.repl ['\u090f', apos] ['\u090e'],
         .repl ['\u0913', apos] ['\u0912'],
         .repl ['\u0914', apos] ['\u0975']]
      else [])

/-- `KashmiriDevanagariNormalizer._2002_to_2009_orthography`. -/
def kashmiri2002to2009Steps : List Step :=
  [.repl ['\u0945'] ['\u093a'],
   .repl ['\u0949'] ['\u093b'],
   .sub (.lit '\u094d') [.lit '\u0935', .cls (fun c => !(charRange 0x93a 0x957 c))]
     [.lit '\u094f', .cap 2],
   .repl ['\u0972'] ['\u0973'],
   .repl ['\u0911'] ['\u0974']]

/-- `KashmiriDevanagariNormalizer.normalize`. -/
def kashmiriSteps (l : ILang) (cfg : Config) : List Step :=
  devanagariSteps l cfg
    ++ (if cfg.do_convert_1995_to_2002_orthography then
          kashmiri1995to2002Steps cfg.do_convert_vowels_with_apostrophe_to_short
        else [])
    ++ (if cfg.do_convert_2002_to_2009_orthography then kashmiri2002to2009Steps else [])

/-! ### `SanskritNormalizer` (the stateless path, `do_split_sandhi=False`;
the sandhi-splitting path carries mutable cache state and is modelled
separately below). -/

/-- `SanskritNormalizer.normalize` accent dropping:
`re.sub('[\u0967\u0969][\u0951\u0952]', '')` then
`re.sub('[\u0951-\u0954\u1cd0-\u1cff\u0971]', '')`. -/
def sanskritAccentSteps : List Step :=
  [.sub (.cls (fun c => c == '\u0967' || c == '\u0969'))
     [.cls (fun c => c == '\u0951' || c == '\u0952')] [],
   .sub (.cls (fun c => charRange 0x951 0x954 c || charRange 0x1cd0 0x1cff c || c == '\u0971'))
     [] []]

def sanskritSteps (l : ILang) (cfg : Config) : List Step :=
  devanagariSteps l cfg
    ++ (if cfg.do_drop_accent then sanskritAccentSteps else [])

/-! ### `GurmukhiNormalizer` -/

/-- `GurmukhiNormalizer.VOWEL_NORM_MAPS` in source (dict insertion) order. -/
def gurmukhiVowelMaps : List (List Char × List Char) :=
  [(['\u0a05', '\u0a3e'], ['\u0a06']),
   (['\u0a72', '\u0a3f'], ['\u0a07']),
   (['\u0a72', '\u0a40'], ['\u0a08']),
   (['\u0a73', '\u0a41'], ['\u0a09']),
   (['\u0a73', '\u0a42'], ['\u0a0a']),
   (['\u0a72', '\u0a47'], ['\u0a0f']),
   (['\u0a05', '\u0a48'], ['\u0a10']),
   (['\u0a73', '\u0a4b'], ['\u0a13']),
   (['\u0a05', '\u0a4c'], ['\u0a14'])]

def gurmukhiNuktaPairs : List (Char × Char) :=
  [('\u0a32', '\u0a33'), ('\u0a38', '\u0a36'), ('\u0a16', '\u0a59'),
   ('\u0a17', '\u0a5a'), ('\u0a1c', '\u0a5b'), ('\u0a2b', '\u0a5e')]

/-- `GurmukhiNormalizer.normalize` before the `super().normalize` call:
addak (`re.sub(r'\u0a71(.)', '\\1\u0a4d\\1')` — `.` matches anything except
newline), tippi, vowel maps, optional vowel-base replacement. -/
def gurmukhiPreSteps (cfg : Config) : List Step :=
  (if cfg.do_canonicalize_addak then
     [.sub (.lit '\u0a71') [.cls (fun c => !(c == '\n'))] [.cap 1, .lit '\u0a4d', .cap 1]]
   else [])
  ++ (if cfg.do_canonicalize_tippi then [.repl ['\u0a70'] ['\u0a02']] else [])
  ++ gurmukhiVowelMaps.map (fun p => .repl p.1 p.2)
  ++ (if cfg.do_replace_vowel_bases then
        [.repl ['\u0a72'] ['\u0a07'], .repl ['\u0a73'] ['\u0a09']]
      else [])

/-- `GurmukhiNormalizer.normalize`. -/
def gurmukhiSteps (l : ILang) (cfg : Config) : List Step :=
  gurmukhiPreSteps cfg
    ++ baseSteps l cfg
    ++ nuktaModeSteps '\u0A3C' gurmukhiNuktaPairs cfg
    ++ [.repl ['\u0a64'] ['\u0964'],
        .repl ['\u0a65'] ['\u0965'],
        .repl ['\u007c'] ['\u0964']]
    ++ colonSteps cfg 0xa00 0xa7f '\u0a03'

/-! ### `GujaratiNormalizer` (no composite pairs: only nukta removal) -/

def gujaratiSteps (l : ILang) (cfg : Config) : List Step :=
  baseSteps l cfg
    ++ (if cfg.remove_nuktas then [.repl ['\u0ABC'] []] else [])
    ++ [.repl ['\u0ae4'] ['\u0964'], .repl ['\u0ae5'] ['\u0965']]
    ++ colonSteps cfg 0xa80 0xaff '\u0a83'

/-! ### `OriyaNormalizer` -/

def oriyaNuktaPairs : List (Char × Char) :=
  [('\u0b21', '\u0b5c'), ('\u0b22', '\u0b5d')]

/-- `OriyaNormalizer.normalize`. -/
def oriyaSteps (l : ILang) (cfg : Config) : List Step :=
  baseSteps l cfg
    ++ [.repl ['\u0b05', '\u0b3e'] ['\u0b06'],
        .repl ['\u0b0f', '\u0b57'] ['\u0b10'],
        .repl ['\u0b13', '\u0b57'] ['\u0b14']]
    ++ nuktaModeSteps '\u0B3C' oriyaNuktaPairs cfg
    ++ [.repl ['\u0b64'] ['\u0964'],
        .repl ['\u0b65'] ['\u0965'],
        .repl ['\u0b7c'] ['\u0964'],
        .repl ['\u0b35'] ['\u0b71']]
    ++ (if cfg.do_remap_wa then [.repl ['\u0b71'] ['\u0b2c']] else [])
    ++ [.repl ['\u0b47', '\u0b56'] ['\u0b58'],
        .repl ['\u0b47', '\u0b3e'] ['\u0b4b'],
        .repl ['\u0b47', '\u0b57'] ['\u0b4c']]
    ++ colonSteps cfg 0xb00 0xb7f '\u0b03'

/-! ### `BengaliNormalizer` -/

def bengaliNuktaPairs : List (Char × Char) :=
  [('\u09a1', '\u09dc'), ('\u09a2', '\u09dd'), ('\u09af', '\u09df')]

/-- `BengaliNormalizer.normalize` (also used for Assamese, `lang='as'`). -/
def bengaliSteps (l : ILang) (cfg : Config) : List Step :=
  baseSteps l cfg
    ++ nuktaModeSteps '\u09BC' bengaliNuktaPairs cfg
    ++ (if l = ILang.as then
          (if cfg.do_remap_assamese_chars then
             [.repl ['\u09f0'] ['\u09b0'], .repl ['\u09f1'] ['\u09ac']]
           else [.repl ['\u09b0'] ['\u09f0']])
        else [])
    ++ [.repl ['\u09e4'] ['\u0964'],
        .repl ['\u09e5'] ['\u0965'],
        .repl ['\u007c'] ['\u0964'],
        .repl ['\u09f7'] ['\u0964'],
        .repl ['\u09c7', '\u09be'] ['\u09cb'],
        .repl ['\u09c7', '\u09d7'] ['\u09cc']]
    ++ colonSteps cfg 0x980 0x9ff '\u0983'

/-! ### `TamilNormalizer` (its colon-to-visarga block is commented out) -/

def tamilSteps (l : ILang) (cfg : Config) : List Step :=
  baseSteps l cfg
    ++ [.repl ['\u0be4'] ['\u0964'],
        .repl ['\u0be5'] ['\u0965'],
        .repl ['\u0b92', '\u0bd7'] ['\u0b94'],
        .repl ['\u0bc6', '\u0bbe'] ['\u0bca'],
        .repl ['\u0bc7', '\u0bbe'] ['\u0bcb'],
        .repl ['\u0bc6', '\u0bd7'] ['\u0bcc']]
    ++ (if cfg.remove_nuktas then
          [.repl ['\u0b83', '\u0b9c'] ['\u0b9c'],
           .repl ['\u0b83', '\u0b95'] ['\u0b95'],
           .repl ['\u0b83', '\u0baa'] ['\u0baa']]
        else [])
    ++ (if cfg.normalize_grantha then
          [.repl ['\u0bb6', '\u0bcd', '\u0bb0', '\u0bc0'] ['\u0ba4', '\u0bbf', '\u0bb0', '\u0bc1'],
           .repl ['\u0b9c'] ['\u0b9a'],
           .repl ['\u0bb6'] ['\u0b9a'],
           .repl ['\u0bb7'] ['\u0b9a'],
           .repl ['\u0bb8'] ['\u0b9a'],
           .repl ['\u0bb9'] ['\u0b95'],
           .repl ['\u0b82'] ['\u0bae', '\u0bcd']]
        else [])

/-! ### `TeluguNormalizer` -/

def teluguSteps (l : ILang) (cfg : Config) : List Step :=
  baseSteps l cfg
    ++ [.repl ['\u0c64'] ['\u0964'],
        .repl ['\u0c65'] ['\u0965'],
        .repl ['\u0c46', '\u0c56'] ['\u0c48']]
    ++ colonSteps cfg 0xc00 0xc7f '\u0c03'

/-! ### `KannadaNormalizer` -/

def kannadaSteps (l : ILang) (cfg : Config) : List Step :=
  baseSteps l cfg
    ++ (if cfg.remove_nuktas then [.repl ['\u0CBC'] []] else [])
    ++ [.repl ['\u0ce4'] ['\u0964'],
        .repl ['\u0ce5'] ['\u0965'],
        .repl ['\u0cbf', '\u0cd5'] ['\u0cc0'],
        .repl ['\u0cc6', '\u0cd5'] ['\u0cc7'],
        .repl ['\u0cc6', '\u0cd6'] ['\u0cc8'],
        .repl ['\u0cc6', '\u0cc2'] ['\u0cca'],
        .repl ['\u0cca', '\u0cd5'] ['\u0ccb']]
    ++ colonSteps cfg 0xc80 0xcff '\u0c83'

/-! ### `MalayalamNormalizer` -/

/-- The chillu pairs `(consonant, chillu)` in source order. -/
def mlChilluPairs : List (Char × Char) :=
  [('\u0d23', '\u0d7a'), ('\u0d28', '\u0d7b'), ('\u0d30', '\u0d7c'),
   ('\u0d32', '\u0d7d'), ('\u0d33', '\u0d7e'), ('\u0d15', '\u0d7f'),
   ('\u0d2e', '\u0d54'), ('\u0d2f', '\u0d55'), ('\u0d34', '\u0d56')]

def mlBlock (c : Char) : Bool := charRange 0xd00 0xd7f c

/-- `MalayalamNormalizer.normalize`. -/
def malayalamSteps (l : ILang) (cfg : Config) : List Step :=
  mlChilluPairs.map (fun p => Step.repl [p.1, '\u0d4d', '\u200d'] [p.2])
    ++ [.repl ['\u0d4e'] ['\u0d7c']]
    ++ baseSteps l cfg
    ++ [.repl ['\u0d3b'] ['\u0d4d'], .repl ['\u0d3c'] ['\u0d4d']]
    ++ (if cfg.do_explicit_half_u then
          [.anchorSub (charRange 0xd15 0xd3a) '\u0d4d' (fun c => !(mlBlock c))
             ['\u0d41', '\u0d4d']]
        else [])
    ++ (if cfg.do_half_u_to_u then
          [.sub (.cls (charRange 0xd15 0xd3a)) [.lit '\u0d41', .lit '\u0d4d']
             [.cap 0, .lit '\u0d41'],
           .anchorSub (charRange 0xd15 0xd3a) '\u0d4d' (fun c => !(mlBlock c)) ['\u0d41']]
        else [])
    ++ (if cfg.do_canonicalize_chillus then
          mlChilluPairs.map (fun p => Step.repl [p.2] [p.1, '\u0d4d'])
        else if cfg.do_convert_viramas_to_chillus then
          mlChilluPairs.map (fun p =>
            Step.sub (.lit p.1) [.lit '\u0d4d', .cls mlBlock] [.lit p.2, .cap 2])
        else if cfg.do_convert_all_viramas_to_chillus then
          mlChilluPairs.map (fun p => Step.repl [p.1, '\u0d4d'] [p.2])
        else [])
    ++ [.repl ['\u0d64'] ['\u0964'],
        .repl ['\u0d65'] ['\u0965'],
        .repl ['\u0d46', '\u0d3e'] ['\u0d4a'],
        .repl ['\u0d47', '\u0d3e'] ['\u0d4b'],
        .repl ['\u0d46', '\u0d57'] ['\u0d4c'],
        .repl ['\u0d57'] ['\u0d4c'],
        .repl ['\u0d3a'] ['\u0d31', '\u0d4d', '\u0d31']]
    ++ (if cfg.do_correct_geminated_T then
          [.repl ['\u0d31', '\u0d4d', '\u0d31'] ['\u0d1f', '\u0d4d', '\u0d1f']]
        else [])
    ++ colonSteps cfg 0xd00 0xd7f '\u0d03'

/-! ### `SinhalaNormalizer` -/

/-- `SinhalaNormalizer.MISRA_TO_SUDDA_CONSONANTS_MAP`. -/
def sinhalaMisraConsTable : List (Char × List Char) :=
  [('\u0D9B', ['\u0D9A']), ('\u0D9D', ['\u0D9C']), ('\u0DA1', ['\u0DA0']),
   ('\u0DA3', ['\u0DA2']), ('\u0DA8', ['\u0DA7']), ('\u0DAA', ['\u0DA9']),
   ('\u0DAE', ['\u0DAD']), ('\u0DB0', ['\u0DAF']), ('\u0DB5', ['\u0DB4']),
   ('\u0DB7', ['\u0DB6']), ('\u0DC1', ['\u0DC3']), ('\u0DC2', ['\u0DC3']),
   ('\u0D9E', ['\u0DAB']), ('\u0DA4', ['\u0DAB']), ('\u0DB1', ['\u0DAB']),
   ('\u0DC6', ['\u0DB4'])]

/-- `SinhalaNormalizer.MISRA_TO_SUDDA_VOWELS_MAP`. -/
def sinhalaMisraVowelTable : List (Char × List Char) :=
  [('\u0D93', ['\u0D85', '\u0DBA', '\u0DD2']),
   ('\u0D96', ['\u0D85', '\u0DC0', '\u0DD4']),
   ('\u0D8D', ['\u0DBB', '\u0DD4']),
   ('\u0D8E', ['\u0DBB', '\u0DD6']),
   ('\u0D8F', ['\u0DBD', '\u0DD2']),
   ('\u0D90', ['\u0DBD', '\u0DD3']),
   ('\u0DDB', ['\u0DBA', '\u0DD2']),
   ('\u0DDE', ['\u0DC0', '\u0DD4']),
   ('\u0DD8', ['\u0DCA', '\u0DBB', '\u0DD4']),
   ('\u0DF2', ['\u0DCA', '\u0DBB', '\u0DD6']),
   ('\u0DDF', ['\u0DCA', '\u0DBD', '\u0DD2']),
   ('\u0DF3', ['\u0DCA', '\u0DBD', '\u0DD3'])]

/-- `SinhalaNormalizer.normalize`. -/
def sinhalaSteps (l : ILang) (cfg : Config) : List Step :=
  baseSteps l cfg
    ++ [.repl ['\u0D85', '\u0DCF'] ['\u0D86'],
        .repl ['\u0D85', '\u0DD0'] ['\u0D87'],
        .repl ['\u0D85', '\u0DD1'] ['\u0D88'],
        .repl ['\u0D8B', '\u0DDF'] ['\u0D8C'],
        .repl ['\u0D8D', '\u0DD8'] ['\u0D8E'],
        .repl ['\u0D8F', '\u0DDF'] ['\u0D90'],
        .repl ['\u0D91', '\u0DCA'] ['\u0D92'],
        .repl ['\u0D92', '\u0DCA'] ['\u0D92'],
        .repl ['\u0D91', '\u0DD9'] ['\u0D93'],
        .repl ['\u0D94', '\u0DDF'] ['\u0D96'],
        .repl ['\u0DD9', '\u0DD9'] ['\u0DDB'],
        .repl ['\u0DD8', '\u0DD8'] ['\u0DF2']]
    ++ (if cfg.misra_consonants_to_suddha then [.tr sinhalaMisraConsTable] else [])
    ++ (if cfg.misra_vowels_to_suddha then [.tr sinhalaMisraVowelTable] else [])
    ++ colonSteps cfg 0xd80 0xdff '\u0d83'

/-! ### The Brahmic normalizer family -/

/-- The `BaseNormalizer`-derived classes (the Sanskrit entry is the stateless
`do_split_sandhi=False` path). -/
inductive BrahmicNorm where
  | base | devanagari | kashmiri | sanskrit | gurmukhi | gujarati | oriya
  | bengali | tamil | telugu | kannada | malayalam | sinhala
deriving DecidableEq

def brahmicSteps : BrahmicNorm → ILang → Config → List Step
  | .base, l, cfg => baseSteps l cfg
  | .devanagari, l, cfg => devanagariSteps l cfg
  | .kashmiri, l, cfg => kashmiriSteps l cfg
  | .sanskrit, l, cfg => sanskritSteps l cfg
  | .gurmukhi, l, cfg => gurmukhiSteps l cfg
  | .gujarati, l, cfg => gujaratiSteps l cfg
  | .oriya, l, cfg => oriyaSteps l cfg
  | .bengali, l, cfg => bengaliSteps l cfg
  | .tamil, l, cfg => tamilSteps l cfg
  | .telugu, l, cfg => teluguSteps l cfg
  | .kannada, l, cfg => kannadaSteps l cfg
  | .malayalam, l, cfg => malayalamSteps l cfg
  | .sinhala, l, cfg => sinhalaSteps l cfg

def brahmicNormalize (n : BrahmicNorm) (l : ILang) (cfg : Config) (t : List Char) :
    List Char :=
  applySteps (brahmicSteps n l cfg) t

/-! ### `IndicNormalizerFactory` -/

inductive NormalizerKind where
  | devanagari | sanskrit | kashmiri | urduShahmukhi | sindhi | arabic | persian
  | gurmukhi | gujarati | bengali | oriya | malayalam | kannada | tamil | telugu
  | sinhala | english | base
deriving DecidableEq

/-- The dispatch of `IndicNormalizerFactory.get_normalizer`: note the final
`else` branch falls through to `BaseNormalizer`. -/
def getNormalizerKind (language : String) : NormalizerKind :=
  if language ∈ ["hi", "mr", "kK", "ne", "sd_IN"] then .devanagari
  else if language ∈ ["sa"] then .sanskrit
  else if language ∈ ["ks_IN"] then .kashmiri
  else if language ∈ ["ur", "pnb", "skr", "ks"] then .urduShahmukhi
  else if language ∈ ["sd"] then .sindhi
  else if language ∈ ["ar"] then .arabic
  else if language ∈ ["fa"] then .persian
  else if language ∈ ["pa"] then .gurmukhi
  else if language ∈ ["gu"] then .gujarati
  else if language ∈ ["bn"] then .bengali
  else if language ∈ ["as"] then .bengali
  else if language ∈ ["or"] then .oriya
  else if language ∈ ["ml"] then .malayalam
  else if language ∈ ["kn"] then .kannada
  else if language ∈ ["ta"] then .tamil
  else if language ∈ ["te"] then .telugu
  else if language ∈ ["si"] then .sinhala
  else if language ∈ ["en"] then .english
  else .base

/-- `IndicNormalizerFactory.is_language_supported`. -/
def isLanguageSupported (language : String) : Bool :=
  language ∈ ["hi", "mr", "sa", "kK", "ne", "sd_IN", "ks_IN",
              "pa", "gu", "bn", "as", "or", "ml", "kn", "ta", "te", "si",
              "ur", "pnb", "sd", "skr", "ks", "ar", "fa", "en"]

/-- Modelled from the spec: the script profile table (`langinfo.SCRIPT_RANGES`,
outside `src/`) keyed by the factory's language codes; unknown codes have no
profile. -/
def scriptProfile (language : String) : Option Nat :=
  if language ∈ ["hi", "mr", "kK", "ne", "sd_IN", "sa", "ks_IN"] then some 0x900
  else if language = "pa" then some 0xa00
  else if language = "gu" then some 0xa80
  else if language ∈ ["bn", "as"] then some 0x980
  else if language = "or" then some 0xb00
  else if language = "ta" then some 0xb80
  else if language = "te" then some 0xc00
  else if language = "kn" then some 0xc80
  else if language = "ml" then some 0xd00
  else if language = "si" then some 0xd80
  else none

inductive BuildError where
  | unsupportedLanguage | invalidOffset | conflictingConfiguration
deriving DecidableEq

inductive BuildOutcome where
  | pipeline (k : NormalizerKind)
  | err (e : BuildError)
deriving DecidableEq

/-- Which factory branches construct a `BaseNormalizer`-family object (whose
`__init__` builds tables through the offset codec). -/
def usesScriptProfile : NormalizerKind → Bool
  | .urduShahmukhi | .sindhi | .arabic | .persian | .english => false
  | _ => true

/-- Modelled from the spec: the construction outcome of
`IndicNormalizerFactory.get_normalizer`.  The dispatch is the source verbatim
(`getNormalizerKind`); for a `BaseNormalizer`-family class the constructor
builds its tables through the offset codec (`langinfo.offset_to_char`, repo
code outside `src/`), which for a language without a script profile fails — a
construction-time `InvalidOffset`/`KeyError`, not `UnsupportedLanguage`.  No
branch of the source raises `UnsupportedLanguage`. -/
def buildNormalizer (language : String) (_cfg : Config) : BuildOutcome :=
  if usesScriptProfile (getNormalizerKind language) then
    match scriptProfile language with
    | some _ => .pipeline (getNormalizerKind language)
    | none => .err .invalidOffset
  else .pipeline (getNormalizerKind language)

/-! ### The sentence splitter (`indicnlp/tokenize/sentence_tokenize.py`)

The splitter is embedded with an `Option` result: `none` models an uncaught
`IndexError` (indexing `[-1]` on an empty list). -/

/-- Modelled: the whitespace set of Python `str.strip` (ASCII whitespace; the
exotic Unicode spaces are immaterial to the inputs exercised here). -/
def isPySpace (c : Char) : Bool :=
  c == ' ' || c == '\t' || c == '\n' || c == '\r' ||
    c == Char.ofNat 11 || c == Char.ofNat 12

/-- Python `text.strip()`. -/
def pyStrip (t : List Char) : List Char :=
  ((t.dropWhile isPySpace).reverse.dropWhile isPySpace).reverse

/-- `DELIM_PAT_DANDA = re.compile(r'[\?!।॥]')`. -/
def dandaDelims : List Char := ['?', '!', '।', '॥']

/-- `DELIM_PAT_NO_DANDA = re.compile(r'[\.\?!।॥]')`. -/
def noDandaDelims : List Char := ['.', '?', '!', '।', '॥']

/-- `DELIM_PAT_URDU = re.compile(r'[۔؟!\?]')`. -/
def urduDelims : List Char := ['۔', '؟', '!', '?']

/-- `CONTAINS_DANDA.search(text)`. -/
def containsDanda (t : List Char) : Bool :=
  t.any (fun c => c == '।' || c == '॥')

/-- Modelled from the spec: `langinfo.is_danda_delim` (repo code outside
`src/`): the languages whose script uses the danda as sentence delimiter. -/
def isDandaDelim (lang : String) : Bool :=
  lang ∈ ["as", "bn", "hi", "ne", "or", "pa", "sa", "sd"]

/-- Modelled: Python `str.isnumeric` restricted to the decimal digits relevant
here (ASCII digits and the Indic script digit blocks at offset 0x66–0x6f). -/
def isNumericChar (c : Char) : Bool :=
  charRange 48 57 c ||
    [0x900, 0x980, 0xa00, 0xa80, 0xb00, 0xb80, 0xc00, 0xc80, 0xd00, 0xd80].any
      (fun b => charRange (b + 0x66) (b + 0x6f) c)

/-- Modelled from the spec: `UnicodeIndicTransliterator.transliterate(text,
lang, 'hi')` (repo code outside `src/`): the offset-parametric map of each
character of the source script block onto the Devanagari block (spec §2:
structurally analogous scripts sit "at fixed relative offsets within each
script's code block"). -/
def transliterateToHindi (lang : String) (t : List Char) : List Char :=
  match scriptProfile lang with
  | some b =>
    t.map (fun c =>
      if decide (b ≤ c.toNat ∧ c.toNat ≤ b + 0x7f) then
        Char.ofNat (c.toNat - b + 0x900)
      else c)
  | none => t

/-- The `ack_chars` set of `is_acronym_abbvr`, in source order. -/
def ackChars : List String :=
  ["ए", "ऎ", "बी", "बि", "सी", "सि", "डी", "डि", "ई", "इ", "एफ", "ऎफ",
   "जी", "जि", "एच", "ऎच", "आई", "आइ", "ऐ", "जे", "जॆ", "के", "कॆ",
   "एल", "ऎल", "एम", "ऎम", "एन", "ऎन", "ओ", "ऒ", "पी", "पि",
   "क्यू", "क्यु", "आर", "एस", "ऎस", "टी", "टि", "यू", "यु",
   "वी", "वि", "व्ही", "व्हि", "डब्ल्यू", "डब्ल्यु", "एक्स", "ऎक्स",
   "वाय", "जेड", "ज़ेड",
   "एफ्", "ऎफ्", "एच्", "ऎच्", "एल्", "ऎल्", "एम्", "ऎम्", "एन्", "ऎन्",
   "आर्", "एस्", "ऎस्", "एक्स्", "ऎक्स्", "वाय्", "जेड्", "ज़ेड्",
   "ऄ", "अ", "आ", "इ", "ई", "उ", "ऊ", "ऋ", "ऌ", "ऍ", "ऎ", "ए", "ऐ",
   "ऑ", "ऒ", "ओ", "औ", "ॠ", "ॡ",
   "क", "ख", "ग", "घ", "ङ", "च", "छ", "ज", "झ", "ञ", "ट", "ठ", "ड", "ढ",
   "ण", "त", "थ", "द", "ध", "न", "ऩ", "प", "फ", "ब", "भ", "म", "य", "र",
   "ऱ", "ल", "ळ", "ऴ", "व", "श", "ष", "स", "ह",
   "श्री", "डॉ", "कु", "चि", "सौ"]

/-- The `en_acr_chars` set of `is_en_acronym_abbvr`. -/
def enAcrChars : List String :=
  ["A", "B", "C", "D", "E", "F", "G", "H", "I", "J", "K", "L", "M",
   "N", "O", "P", "Q", "R", "S", "T", "U", "V", "W", "X", "Y", "Z",
   "Mr", "Ms", "Mrs", "Dr", "Jr", "Hon", "Prof", "Capt", "St", "No", "Rs"]

def isEnAcronymAbbvr (text : List Char) : Bool :=
  enAcrChars.contains (String.mk text)

/-- `is_acronym_abbvr(text, lang)`. -/
def isAcronymAbbvr (text : List Char) (lang : String) : Bool :=
  if lang = "en" then isEnAcronymAbbvr text
  else ackChars.contains (String.mk (transliterateToHindi lang text))

/-- Append `s` to the last candidate sentence, pushing an empty sentence first
when the list is empty (the guarded in-loop form, lines 279–281). -/
def addToLastGuarded (cand : List (List Char)) (s : List Char) : List (List Char) :=
  match cand with
  | [] => [s]
  | _ => cand.dropLast ++ [(cand.getLast?.getD []) ++ s]

/-- Phase 1 loop body state: `(begin, cand_sentences)`. -/
def phase1Fold (t : List Char) (quoteIdx : List Nat) (checkQuotes : Bool)
    (st : Nat × List (List Char)) (p1 : Nat) : Nat × List (List Char) :=
  if t.getD p1 (Char.ofNat 0) = '.' ∧
      (0 < p1 ∧ isNumericChar (t.getD (p1 - 1) (Char.ofNat 0))) ∧
      (p1 + 1 < t.length ∧ isNumericChar (t.getD (p1 + 1) (Char.ofNat 0))) then
    st
  else if checkQuotes ∧ (quoteIdx.countP (fun i => decide (i < p1))) % 2 = 1 then
    st
  else
    let s := pyStrip ((t.take (p1 + 1)).drop st.1)
    (p1 + 1,
     if s = [] then st.2
     else if s.length = 1 then addToLastGuarded st.2 s
     else st.2 ++ [s])

/-- Phase 2 of `sentence_split` (period disambiguation), with `none` modelling
the `sentence[-1]` `IndexError` on an empty candidate sentence. -/
def phase2 (lang : String) :
    List (List Char) → List (List Char) → List Char → Bool → Option (List (List Char))
  | [], final, buffer, _ =>
    some (if buffer ≠ [] then final ++ [buffer] else final)
  | sentence :: rest, final, buffer, bad =>
    let words := splitChar ' ' sentence
    match sentence.getLast? with
    | none => none
    | some lastc =>
      if words.length = 1 ∧ lastc = '.' then
        phase2 lang rest final (buffer ++ ' ' :: sentence) true
      else if lastc = '.' ∧ isAcronymAbbvr ((words.getLast?.getD []).dropLast) lang then
        phase2 lang rest (if buffer ≠ [] ∧ ¬bad then final ++ [buffer] else final)
          sentence true
      else if bad then
        let b2 := buffer ++ ' ' :: sentence
        phase2 lang rest (final ++ (if b2 ≠ [] then [b2] else [])) [] false
      else
        phase2 lang rest (if buffer ≠ [] then final ++ [buffer] else final)
          sentence false

inductive DelimPat where
  | auto
  | pat (delims : List Char)

/-- `sentence_split(text, lang, delim_pat='auto')`.  Returns `none` exactly
when the source raises an uncaught `IndexError`. -/
def sentenceSplit (text : List Char) (lang : String) (delimPat : DelimPat) :
    Option (List (List Char)) :=
  let delims :=
    match delimPat with
    | .pat d => d
    | .auto =>
      if isDandaDelim lang then
        (if containsDanda text then dandaDelims else noDandaDelims)
      else if lang ∈ ["ur", "pnb", "ks"] then urduDelims
      else noDandaDelims
  let t := pyStrip (pyReplace ['\r'] [] text)
  let quoteIdx := (t.enum.filter (fun p => p.2 == dquote)).map Prod.fst
  let checkQuotes := !quoteIdx.isEmpty && quoteIdx.length % 2 == 0
  let delimIdx := (t.enum.filter (fun p => delims.contains p.2)).map Prod.fst
  let st := delimIdx.foldl (phase1Fold t quoteIdx checkQuotes) (0, [])
  let tailS := pyStrip (t.drop st.1)
  let cand1 :=
    if tailS = [] then some st.2
    else if tailS.length = 1 then
      match st.2 with
      | [] => none
      | _ => some (st.2.dropLast ++ [(st.2.getLast?.getD []) ++ tailS])
    else some (st.2 ++ [tailS])
  cand1.bind (fun cand =>
    let cand2 := cand.flatMap (splitChar '\n')
    if ¬ delims.contains '.' then some cand2
    else phase2 lang cand2 [] [] false)

/-! ### `SanskritNormalizer` with sandhi splitting (stateful) -/

/-- The chunk class `[ऀ-ॣॲ-ॿ]` of the sandhi splitter. -/
def sandhiClass (c : Char) : Bool :=
  charRange 0x900 0x963 c || charRange 0x972 0x97f c

/-- Maximal runs of `p`-characters (`re.findall('[...]+', text)`). -/
def chunkRuns (p : Char → Bool) : List Char → List (List Char)
  | [] => []
  | c :: cs =>
    if p c then
      match chunkRuns p cs with
      | r :: rs =>
        if (cs.head?.map p).getD false then (c :: r) :: rs else [c] :: r :: rs
      | [] => [[c]]
    else chunkRuns p cs

/-- The sandhi loop of `SanskritNormalizer.normalize` (lines 566–579): for
each chunk not in the cache, consult the external parser (opaque collaborator,
given as a parameter: `none` = no split found) and insert into the cache; a
failed split `continue`s without the `text.replace`. -/
def sanskritSandhiLoop (parser : List Char → Option (List Char)) :
    List (List Char) → List (List Char × List Char) → List Char →
      List (List Char × List Char) × List Char
  | [], cache, text => (cache, text)
  | m :: ms, cache, text =>
    match List.lookup m cache with
    | some v => sanskritSandhiLoop parser ms cache (pyReplace m v text)
    | none =>
      match parser m with
      | none => sanskritSandhiLoop parser ms (cache ++ [(m, m)]) text
      | some v => sanskritSandhiLoop parser ms (cache ++ [(m, v)]) (pyReplace m v text)

/-- `SanskritNormalizer.normalize` with the sandhi cache state passed
explicitly: returns the new cache and the output text. -/
def sanskritNormalizeStateful (l : ILang) (cfg : Config) (doSplitSandhi : Bool)
    (parser : List Char → Option (List Char))
    (cache : List (List Char × List Char)) (text : List Char) :
    List (List Char × List Char) × List Char :=
  let t := applySteps (sanskritSteps l cfg) text
  if doSplitSandhi then
    sanskritSandhiLoop parser (chunkRuns sandhiClass t) cache t
  else (cache, t)

/-! ### Nukta decompose/recompose (claim C7)

The decompose and recompose modes of the nukta stage are the corresponding
branches of `nuktaModeSteps`; we prove they are inverses by relating the
sequential `str.replace` passes to one-pass scanning functions. -/

/-- The decompose mode of the nukta stage (the `decompose_nuktas` branch). -/
def nuktaDecompose (nukta : Char) (pairs : List (Char × Char)) (t : List Char) :
    List Char :=
  applySteps (nuktaModeSteps nukta pairs { decompose_nuktas := true }) t

/-- The recompose mode of the nukta stage (the default branch, neither
`remove_nuktas` nor `decompose_nuktas`). -/
def nuktaRecompose (nukta : Char) (pairs : List (Char × Char)) (t : List Char) :
    List Char :=
  applySteps (nuktaModeSteps nukta pairs {}) t

/-- One-pass specification of decomposition: expand each composite character
into base+nukta. -/
def decExpand (nukta : Char) (pairs : List (Char × Char)) (c : Char) : List Char :=
  match List.lookup c (pairs.map (fun p => (p.2, p.1))) with
  | some b => [b, nukta]
  | none => [c]

def specDec (nukta : Char) (pairs : List (Char × Char)) (t : List Char) : List Char :=
  t.flatMap (decExpand nukta pairs)

/-- One-pass specification of recomposition: fold each base+nukta pair into
the composite character. -/
def specRec (nukta : Char) (pairs : List (Char × Char)) : List Char → List Char
  | [] => []
  | [c] => [c]
  | c :: d :: rest =>
    if d = nukta then
      match List.lookup c pairs with
      | some comp => comp :: specRec nukta pairs rest
      | none => c :: specRec nukta pairs (d :: rest)
    else c :: specRec nukta pairs (d :: rest)
termination_by t => t.length

/-- The well-formedness of a script's nukta-composite table. -/
structure NuktaOk (nukta : Char) (pairs : List (Char × Char)) : Prop where
  base_ne : ∀ q ∈ pairs, q.1 ≠ nukta
  comp_ne : ∀ q ∈ pairs, q.2 ≠ nukta
  disj : ∀ q ∈ pairs, ∀ r ∈ pairs, q.1 ≠ r.2
  base_nodup : (pairs.map Prod.fst).Nodup
  comp_nodup : (pairs.map Prod.snd).Nodup

/-- The scripts with a declared nukta-composite set. -/
inductive NuktaScript where
  | devanagari | gurmukhi | oriya | bengali
deriving DecidableEq

def nuktaCharOf : NuktaScript → Char
  | .devanagari => '़'
  | .gurmukhi => '਼'
  | .oriya => '଼'
  | .bengali => '়'

def nuktaPairsOf : NuktaScript → List (Char × Char)
  | .devanagari => devaNuktaPairs
  | .gurmukhi => gurmukhiNuktaPairs
  | .oriya => oriyaNuktaPairs
  | .bengali => bengaliNuktaPairs

/-! ### Claim C4: the common cleanup characters -/

/-- The characters claim C4 is about: ZWNJ, ZWJ and the byte-order marks. -/
def forbidden4 : List Char := ['‌', '‍', '﻿', '￾']

/-- All characters a step list can introduce. -/
def allIntro (L : List Step) : List Char := L.flatMap introChars

/-! ### The Urdu/Shahmukhi adapter (claim C4, counterexample side)

`UrduShahmukhiNormalizer` derives from `NormalizerI`, not `BaseNormalizer`:
its `normalize` never runs the common cleanup.  The external UrduHack
functions are opaque collaborator parameters (spec §6: any adapter exposing a
pure, total `normalize`). -/

/-- `UrduShahmukhiNormalizer.__init__`: the `arabic_normalizer` table. -/
def urduArabicNormalizerTable : List (Char × List Char) :=
  [(',', ['،']), ('?', ['؟']), ('؛', [';']), ('٪', ['%']),
   ('٫', ['.']), ('٬', [',']), ('؍', ['/']),
   ('ࣇ', ['ل', 'ؕ']), ('ﷲ', ['ا', 'ل', 'ل', 'ہ'])]

def eastArabicNumerals : List Char := ['۰', '۱', '۲', '۳', '۴', '۵', '۶', '۷', '۸', '۹']

/-- `numerals_normalizer`: East-Arabic digits to ASCII. -/
def urduNumeralsNormalizerTable : List (Char × List Char) :=
  eastArabicNumerals.enum.map (fun p => (p.2, [Char.ofNat (48 + p.1)]))

/-- `numerals_to_persian`: ASCII digits to East-Arabic. -/
def urduNumeralsToPersianTable : List (Char × List Char) :=
  eastArabicNumerals.enum.map (fun p => (Char.ofNat (48 + p.1), [p.2]))

/-- The keyword options of `UrduShahmukhiNormalizer.__init__`. -/
structure UrduCfg where
  remove_diacritics : Bool := true
  do_normalize_numerals : Bool := false
  convert_numerals_to_native : Bool := false

/-- `UrduShahmukhiNormalizer.normalize`: punctuation normalization, optional
external diacritic removal (never for Kashmiri), external character
normalization, the Arabic punctuation table, one numeral direction, external
combine/spacing passes.  The five external UrduHack functions are opaque
parameters. -/
def urduShahmukhiNormalize (lang : String) (cfg : UrduCfg)
    (removeDiacritics normalizeCharacters normalizeCombine punctuationsSpace
      englishCharsSpace : List Char → List Char) (text : List Char) : List Char :=
  let t1 := applySteps punctSteps text
  let t2 := if (if lang = "ks" then false else cfg.remove_diacritics) then
      removeDiacritics t1 else t1
  let t3 := normalizeCharacters t2
  let t4 := translate urduArabicNormalizerTable t3
  let t5 :=
    if cfg.do_normalize_numerals then translate urduNumeralsNormalizerTable t4
    else if cfg.convert_numerals_to_native then translate urduNumeralsToPersianTable t4
    else t4
  let t6 := normalizeCombine t5
  let t7 := punctuationsSpace t6
  englishCharsSpace t7

/-- A configuration with only the vowel-ending stage enabled. -/
def vowelEndingCfg : Config := { do_normalize_vowel_ending := true }

theorem mem_of_isPrefixOf {p t : List Char} (h : p.isPrefixOf t = true) :
    ∀ c ∈ p, c ∈ t := by
  induction p generalizing t with
  | nil => intro c hc; cases hc
  | cons a as ih =>
    cases t with
    | nil => simp [List.isPrefixOf] at h
    | cons b bs =>
      simp only [List.isPrefixOf, Bool.and_eq_true, beq_iff_eq] at h
      intro c hc
      rcases List.mem_cons.1 hc with rfl | hc
      · exact h.1 ▸ List.mem_cons_self _ _
      · exact List.mem_cons_of_mem _ (ih h.2 c hc)

theorem mem_pyReplace {x : Char} {s d t : List Char}
    (h : x ∈ pyReplace s d t) : x ∈ t ∨ x ∈ d := by
  induction s, d, t using pyReplace.induct with
  | case1 d t => rw [pyReplace.eq_1] at h; exact .inl h
  | case2 s0 sr d => rw [pyReplace.eq_2] at h; cases h
  | case3 s0 sr d c cs hm ih =>
    rw [pyReplace.eq_3, if_pos hm] at h
    rcases List.mem_append.1 h with h | h
    · exact .inr h
    · rcases ih h with h | h
      · exact .inl (.tail _ (List.mem_of_mem_drop h))
      · exact .inr h
  | case4 s0 sr d c cs hm ih =>
    rw [pyReplace.eq_3, if_neg hm] at h
    rcases List.mem_cons.1 h with rfl | h
    · exact .inl (.head _)
    · rcases ih h with h | h
      · exact .inl (.tail _ h)
      · exact .inr h

theorem not_mem_pyReplace {x : Char} {s d t : List Char}
    (ht : x ∉ t) (hd : x ∉ d) : x ∉ pyReplace s d t := by
  intro h
  rcases mem_pyReplace h with h | h
  · exact ht h
  · exact hd h

/-- Replacing the single character `a` by a string not containing `a`
removes every occurrence of `a`. -/
theorem not_mem_pyReplace_single {a : Char} {d t : List Char}
    (hd : a ∉ d) : a ∉ pyReplace [a] d t := by
  induction t with
  | nil => rw [pyReplace.eq_2]; exact List.not_mem_nil a
  | cons c cs ih =>
    by_cases hc : a = c
    · rw [pyReplace.eq_3, if_pos ⟨hc, by simp [List.isPrefixOf]⟩]
      intro h
      rcases List.mem_append.1 h with h | h
      · exact hd h
      · exact ih (by simpa using h)
    · rw [pyReplace.eq_3, if_neg (by rintro ⟨h, -⟩; exact hc h)]
      intro h
      rcases List.mem_cons.1 h with h | h
      · exact hc h
      · exact ih (by simpa using h)

theorem pyReplace_eq_self {s d t : List Char}
    (h : hasSub s t = false) : pyReplace s d t = t := by
  induction t with
  | nil =>
    cases s with
    | nil => simp [hasSub, List.isEmpty] at h
    | cons s0 sr => rw [pyReplace.eq_2]
  | cons c cs ih =>
    cases s with
    | nil => simp [hasSub, List.isPrefixOf] at h
    | cons s0 sr =>
      rw [hasSub, Bool.or_eq_false_iff] at h
      rw [pyReplace.eq_3, if_neg, ih h.2]
      intro hcon
      have hone : (s0 :: sr).isPrefixOf (c :: cs) = true := by
        simp only [List.isPrefixOf, Bool.and_eq_true, beq_iff_eq]
        exact ⟨hcon.1, hcon.2⟩
      rw [hone] at h
      exact absurd h.1 (by simp)

theorem mem_of_hasSub {p t : List Char} (h : hasSub p t = true) :
    ∀ c ∈ p, c ∈ t := by
  induction t with
  | nil =>
    intro c hc
    cases p with
    | nil => cases hc
    | cons a as => simp [hasSub, List.isEmpty] at h
  | cons b bs ih =>
    rw [hasSub, Bool.or_eq_true] at h
    intro c hc
    rcases h with h | h
    · exact mem_of_isPrefixOf h c hc
    · exact .tail _ (ih h c hc)

theorem hasSub_single_of_not_mem {c : Char} {t : List Char} (h : c ∉ t) :
    hasSub [c] t = false := by
  induction t with
  | nil => rfl
  | cons b bs ih =>
    rw [hasSub, Bool.or_eq_false_iff]
    refine ⟨?_, ih (fun hm => h (.tail _ hm))⟩
    simp only [List.isPrefixOf, Bool.and_eq_false_iff, beq_eq_false_iff_ne, ne_eq]
    exact .inl (fun hcb => h (hcb ▸ List.mem_cons_self _ _))

theorem applySteps_nil (t : List Char) : applySteps [] t = t := rfl

theorem applySteps_cons (s : Step) (L : List Step) (t : List Char) :
    applySteps (s :: L) t = applySteps L (applyStep s t) := rfl

theorem applySteps_append (A B : List Step) (t : List Char) :
    applySteps (A ++ B) t = applySteps B (applySteps A t) :=
  List.foldl_append _ _ _ _

theorem getD_mem_or {l : List Char} {i : Nat} {d : Char} :
    l.getD i d ∈ l ∨ l.getD i d = d := by
  by_cases hi : i < l.length
  · left
    rw [List.getD_eq_getElem l d hi]
    exact List.getElem_mem hi
  · right
    exact List.getD_eq_default l d (by omega)

theorem mem_tmplLits {c : Char} {tmpl : List TmplItem}
    (h : TmplItem.lit c ∈ tmpl) : c ∈ tmplLits tmpl := by
  induction tmpl with
  | nil => cases h
  | cons j js ih =>
    rcases List.mem_cons.1 h with hj | hj
    · rw [← hj, tmplLits]
      exact .head _
    · cases j with
      | lit c2 =>
        rw [tmplLits]
        exact .tail _ (ih hj)
      | cap i =>
        rw [tmplLits]
        exact ih hj

theorem mem_renderTmpl {x : Char} {tmpl : List TmplItem} {m : List Char}
    (h : x ∈ renderTmpl tmpl m) :
    x ∈ m ∨ x ∈ tmplLits tmpl ∨ x = Char.ofNat 0 := by
  rw [renderTmpl, List.mem_map] at h
  obtain ⟨it, hit, hx⟩ := h
  cases it with
  | lit c =>
    have hc : c = x := hx
    exact .inr (.inl (hc ▸ mem_tmplLits hit))
  | cap i =>
    have hc : m.getD i (Char.ofNat 0) = x := hx
    rcases @getD_mem_or m i (Char.ofNat 0) with hm | hm
    · exact .inl (hc ▸ hm)
    · exact .inr (.inr (by rw [← hc, hm]))

theorem mem_subPat {x : Char} {a0 : Atom} {pat : List Atom} {tmpl : List TmplItem}
    {t : List Char} (h : x ∈ subPat a0 pat tmpl t) :
    x ∈ t ∨ x ∈ Char.ofNat 0 :: tmplLits tmpl := by
  induction t using subPat.induct a0 pat tmpl with
  | case1 => rw [subPat] at h; cases h
  | case2 c cs hm m rest hmp ih =>
    rw [subPat, if_pos hm, hmp] at h
    rcases List.mem_append.1 h with h | h
    · rcases mem_renderTmpl h with h | h | h
      · rcases List.mem_cons.1 h with rfl | h
        · exact .inl (.head _)
        · have hcs : x ∈ cs := (matchPat_eq hmp) ▸ List.mem_append.2 (.inl h)
          exact .inl (.tail _ hcs)
      · exact .inr (.tail _ h)
      · exact .inr (h ▸ .head _)
    · rcases ih h with h | h
      · have hcs : x ∈ cs := (matchPat_eq hmp) ▸ List.mem_append.2 (.inr h)
        exact .inl (.tail _ hcs)
      · exact .inr h
  | case3 c cs hm hmp ih =>
    rw [subPat, if_pos hm, hmp] at h
    rcases List.mem_cons.1 h with rfl | h
    · exact .inl (.head _)
    · rcases ih h with h | h
      · exact .inl (.tail _ h)
      · exact .inr h
  | case4 c cs hm ih =>
    rw [subPat, if_neg hm] at h
    rcases List.mem_cons.1 h with rfl | h
    · exact .inl (.head _)
    · rcases ih h with h | h
      · exact .inl (.tail _ h)
      · exact .inr h

theorem mem_subEnd {x : Char} {p1 : Char → Bool} {h2 : Char} {p3 : Char → Bool}
    {mid t : List Char} (h : x ∈ subEnd p1 h2 p3 mid t) :
    x ∈ t ∨ x ∈ mid := by
  induction t using subEnd.induct p1 h2 p3 mid with
  | case1 c d hm =>
    have heq : subEnd p1 h2 p3 mid [c, d] = c :: mid := by
      rw [subEnd.eq_def]
      simp [hm.1, hm.2]
    rw [heq] at h
    rcases List.mem_cons.1 h with rfl | h
    · exact .inl (.head _)
    · exact .inr h
  | case2 c d hm e rest2 hp ih =>
    have heq : subEnd p1 h2 p3 mid (c :: d :: e :: rest2) =
        c :: (mid ++ e :: subEnd p1 h2 p3 mid rest2) := by
      rw [subEnd.eq_def]
      simp [hm.1, hm.2, hp]
    rw [heq] at h
    rcases List.mem_cons.1 h with rfl | h
    · exact .inl (.head _)
    · rcases List.mem_append.1 h with h | h
      · exact .inr h
      · rcases List.mem_cons.1 h with rfl | h
        · exact .inl (.tail _ (.tail _ (.head _)))
        · rcases ih h with h | h
          · exact .inl (.tail _ (.tail _ (.tail _ h)))
          · exact .inr h
  | case3 c d hm e rest2 hp ih =>
    have heq : subEnd p1 h2 p3 mid (c :: d :: e :: rest2) =
        c :: subEnd p1 h2 p3 mid (d :: e :: rest2) := by
      rw [subEnd.eq_def]
      simp [hm.1, hm.2, hp]
    rw [heq] at h
    rcases List.mem_cons.1 h with rfl | h
    · exact .inl (.head _)
    · rcases ih h with h | h
      · exact .inl (.tail _ h)
      · exact .inr h
  | case4 c d rest hm ih =>
    have heq : subEnd p1 h2 p3 mid (c :: d :: rest) =
        c :: subEnd p1 h2 p3 mid (d :: rest) := by
      rw [subEnd.eq_def]
      simp [hm]
    rw [heq] at h
    rcases List.mem_cons.1 h with rfl | h
    · exact .inl (.head _)
    · rcases ih h with h | h
      · exact .inl (.tail _ h)
      · exact .inr h
  | case5 t hne =>
    rcases t with _ | ⟨c, _ | ⟨d, rest⟩⟩
    · rw [subEnd.eq_def] at h
      exact .inl h
    · rw [subEnd.eq_def] at h
      exact .inl h
    · exact (hne c d rest rfl).elim

theorem lookup_mem_snd {c : Char} {s : List Char} {tbl : List (Char × List Char)}
    (h : List.lookup c tbl = some s) : s ∈ tbl.map Prod.snd := by
  induction tbl with
  | nil => cases h
  | cons p ps ih =>
    rw [List.lookup] at h
    cases hcb : c == p.1 with
    | true =>
      rw [hcb] at h
      cases h
      exact .head _
    | false =>
      rw [hcb] at h
      exact .tail _ (ih h)

theorem mem_translate {x : Char} {tbl : List (Char × List Char)} {t : List Char}
    (h : x ∈ translate tbl t) : x ∈ t ∨ x ∈ (tbl.map Prod.snd).flatten := by
  rw [translate, List.mem_flatMap] at h
  obtain ⟨c, hc, hx⟩ := h
  cases hl : List.lookup c tbl with
  | some s =>
    rw [hl] at hx
    exact .inr (List.mem_flatten.2 ⟨s, lookup_mem_snd hl, hx⟩)
  | none =>
    rw [hl] at hx
    rcases List.mem_cons.1 hx with rfl | hx
    · exact .inl hc
    · cases hx

theorem mem_of_mem_splitChar {x : Char} {sep : Char} {w t : List Char}
    (hw : w ∈ splitChar sep t) (hx : x ∈ w) : x ∈ t := by
  induction t generalizing w with
  | nil =>
    rw [splitChar] at hw
    rcases List.mem_cons.1 hw with rfl | hw
    · cases hx
    · cases hw
  | cons c cs ih =>
    rw [splitChar] at hw
    cases hs : splitChar sep cs with
    | nil =>
      rw [hs] at hw
      rcases List.mem_cons.1 hw with rfl | hw
      · rcases List.mem_cons.1 hx with rfl | hx
        · exact .head _
        · cases hx
      · cases hw
    | cons w0 ws =>
      rw [hs] at hw
      have hw2 : w ∈ (if c = sep then [] :: w0 :: ws else (c :: w0) :: ws) := hw
      by_cases hc : c = sep
      · rw [if_pos hc] at hw2
        rcases List.mem_cons.1 hw2 with rfl | hw2
        · cases hx
        · exact .tail _ (ih (hs ▸ hw2) hx)
      · rw [if_neg hc] at hw2
        rcases List.mem_cons.1 hw2 with rfl | hw2
        · rcases List.mem_cons.1 hx with rfl | hx
          · exact .head _
          · exact .tail _ (ih (hs ▸ List.mem_cons_self _ _) hx)
        · exact .tail _ (ih (hs ▸ List.mem_cons_of_mem _ hw2) hx)

theorem mem_joinChar {x sep : Char} {ws : List (List Char)}
    (h : x ∈ joinChar sep ws) : x = sep ∨ ∃ w ∈ ws, x ∈ w := by
  induction ws with
  | nil => cases h
  | cons w ws ih =>
    cases ws with
    | nil =>
      rw [joinChar] at h
      exact .inr ⟨w, .head _, h⟩
    | cons w2 ws2 =>
      rw [joinChar] at h
      rcases List.mem_append.1 h with h | h
      · exact .inr ⟨w, .head _, h⟩
      · rcases List.mem_cons.1 h with rfl | h
        · exact .inl rfl
        · rcases ih h with h | ⟨w3, hw3, hx⟩
          · exact .inl h
          · exact .inr ⟨w3, .tail _ hw3, hx⟩

theorem mem_applyStep {x : Char} {s : Step} {t : List Char}
    (h : x ∈ applyStep s t) : x ∈ t ∨ x ∈ introChars s := by
  cases s with
  | repl src dst => exact mem_pyReplace h
  | sub a0 pat tmpl => exact mem_subPat h
  | anchorSub p1 h2 p3 mid => exact mem_subEnd h
  | tr tbl => exact mem_translate h
  | vowelEnd ic app =>
    rw [applyStep] at h
    rcases mem_joinChar h with rfl | ⟨w, hw, hx⟩
    · exact .inr (.head _)
    · rw [List.mem_map] at hw
      obtain ⟨w0, hw0, hmap⟩ := hw
      rw [← hmap] at hx
      by_cases hcond : (w0.getLast?.map ic).getD false = true
      · rw [if_pos hcond] at hx
        rcases List.mem_append.1 hx with hx | hx
        · exact .inl (mem_of_mem_splitChar hw0 hx)
        · exact .inr (.tail _ hx)
      · rw [if_neg hcond] at hx
        exact .inl (mem_of_mem_splitChar hw0 hx)

theorem mem_applySteps {x : Char} {L : List Step} {t : List Char}
    (h : x ∈ applySteps L t) : x ∈ t ∨ ∃ s ∈ L, x ∈ introChars s := by
  induction L generalizing t with
  | nil => exact .inl h
  | cons s L ih =>
    rw [applySteps_cons] at h
    rcases ih h with h | ⟨s2, hs2, hx⟩
    · rcases mem_applyStep h with h | h
      · exact .inl h
      · exact .inr ⟨s, .head _, h⟩
    · exact .inr ⟨s2, .tail _ hs2, hx⟩

theorem not_mem_applySteps {x : Char} {L : List Step} {t : List Char}
    (ht : x ∉ t) (hL : ∀ s ∈ L, x ∉ introChars s) : x ∉ applySteps L t := by
  intro h
  rcases mem_applySteps h with h | ⟨s, hs, hx⟩
  · exact ht h
  · exact hL s hs hx

/-- If a step list removes the single character `c` at some point and no later
step can introduce `c`, the result does not contain `c`. -/
theorem removed_absent {c : Char} {L L1 L2 : List Step} {dst t : List Char}
    (hsplit : L = L1 ++ Step.repl [c] dst :: L2) (hdst : c ∉ dst)
    (hL2 : ∀ s ∈ L2, c ∉ introChars s) : c ∉ applySteps L t := by
  rw [hsplit, applySteps_append, applySteps_cons]
  exact not_mem_applySteps (not_mem_pyReplace_single hdst) hL2

/-! ### Claim theorems: factory and configuration behaviour -/

/-- Claim C2, counterexample: for the unsupported language code `"xx"`,
`IndicNormalizerFactory.get_normalizer` does not fail with
`UnsupportedLanguage` — no branch of the factory produces that error. -/
theorem c2_no_unsupported_language_error :
    buildNormalizer "xx" {} ≠ BuildOutcome.err BuildError.unsupportedLanguage := by
  decide

/-- Claim C2 (amended): `get_normalizer("xx")` performs no support check and
falls through to the `BaseNormalizer` branch; construction then fails with a
missing-script-profile error (`KeyError` in `langinfo`, the spec's
`InvalidOffset`) at construction time — never `UnsupportedLanguage` — while
`is_language_supported("xx")` returns `False` but is not consulted. -/
theorem c2_factory_fallthrough :
    getNormalizerKind "xx" = NormalizerKind.base
    ∧ buildNormalizer "xx" {} = BuildOutcome.err BuildError.invalidOffset
    ∧ isLanguageSupported "xx" = false
    ∧ ∀ (language : String) (cfg : Config),
        buildNormalizer language cfg ≠ BuildOutcome.err BuildError.unsupportedLanguage := by
  refine ⟨by decide, by decide, by decide, ?_⟩
  intro language cfg
  rw [buildNormalizer]
  by_cases h : usesScriptProfile (getNormalizerKind language)
  · rw [if_pos h]
    cases scriptProfile language with
    | some b => simp
    | none => simp
  · rw [if_neg h]
    simp

unseal pyReplace subPat subEnd in
/-- Claim C3, counterexample: requesting both numeral-translation directions
(`do_normalize_numerals` and `convert_numerals_to_native` both true) is not
rejected: the factory constructs the normalizer, and its `normalize` applies
the native-to-Latin direction (`"१2"` becomes `"12"`). -/
theorem c3_both_numeral_flags_accepted :
    buildNormalizer "hi"
        { do_normalize_numerals := true, convert_numerals_to_native := true }
      = BuildOutcome.pipeline NormalizerKind.devanagari
    ∧ devanagariNormalize .hi
        { do_normalize_numerals := true, convert_numerals_to_native := true }
        "१2".data
      = "12".data := by
  constructor
  · decide
  · decide

/-- Claim C3 (amended): `BaseNormalizer.__init__` accepts both
numeral-translation flags without any `ConflictingConfiguration` error, and at
`normalize` time the `if`/`elif` gives `do_normalize_numerals` precedence:
with both flags set the pipeline behaves exactly as with only
`do_normalize_numerals` set. -/
theorem c3_normalize_numerals_precedence :
    (∀ cfg : Config, buildNormalizer "hi" cfg = BuildOutcome.pipeline NormalizerKind.devanagari)
    ∧ ∀ (l : ILang) (cfg : Config) (t : List Char),
        baseNormalize l
            { cfg with do_normalize_numerals := true, convert_numerals_to_native := true } t
          = baseNormalize l
              { cfg with do_normalize_numerals := true, convert_numerals_to_native := false } t := by
  constructor
  · intro cfg
    rfl
  · intro l cfg t
    rfl

unseal pyReplace subPat subEnd in
/-- Claim C9: with `do_colon_to_visarga` enabled on the Devanagari normalizer,
`normalize("क:")` yields `"क"` followed by U+0903, `"a:"` is left unchanged,
and on any two-character input `[c, ':']` the colon rule fires exactly when
`c` lies in the Devanagari block U+0900–U+097F. -/
theorem c9_colon_to_visarga :
    devanagariNormalize .hi { do_colon_to_visarga := true } "क:".data
      = ['क', 'ः']
    ∧ devanagariNormalize .hi { do_colon_to_visarga := true } "a:".data = "a:".data
    ∧ ∀ c : Char,
        applyStep (colonStep 0x900 0x97f 'ः') [c, ':']
          = if charRange 0x900 0x97f c then [c, 'ः'] else [c, ':'] := by
  refine ⟨by decide, by decide, ?_⟩
  intro c
  by_cases h : charRange 0x900 0x97f c
  · rw [if_pos h]
    simp [applyStep, colonStep, subPat, Atom.matches, h, matchPat, renderTmpl]
  · rw [if_neg h]
    simp [applyStep, colonStep, subPat, Atom.matches, h, matchPat, renderTmpl]

unseal pyReplace subPat subEnd in
/-- Claim C10: `sentence_split` on the single-character, delimiter-free input
`"क"` (language `hi`, automatic delimiter choice) indexes
`cand_sentences[-1]` on an empty list and raises an uncaught `IndexError`
(modelled as `none`) instead of returning a sentence list. -/
theorem c10_sentence_split_index_error :
    sentenceSplit "क".data "hi" DelimPat.auto = none := by
  decide

unseal pyReplace subPat subEnd in
/-- Claim C6, counterexample: `SanskritNormalizer.normalize` with
`do_split_sandhi` enabled mutates the normalizer's `sandhi_cache` field: even
with an external parser that finds no split, normalizing `"राम"` from an empty
cache leaves the entry `("राम" ↦ "राम")` behind — state persists between
calls beyond the immutable configuration. -/
theorem c6_sandhi_cache_mutates :
    (sanskritNormalizeStateful .sa {} true (fun _ => none) [] "राम".data).1
      = [("राम".data, "राम".data)]
    ∧ (sanskritNormalizeStateful .sa {} true (fun _ => none) [] "राम".data).1 ≠ [] := by
  constructor
  · decide
  · decide

/-- Claim C6 (amended): every normalizer except the sandhi-splitting Sanskrit
path is stateless — the embedded `normalize` functions are pure functions of
the immutable configuration and the input text; in particular the Sanskrit
normalizer with `do_split_sandhi` disabled (the default) returns its cache
unchanged for every configuration, parser, cache and input. -/
theorem c6_stateless_without_sandhi (l : ILang) (cfg : Config)
    (parser : List Char → Option (List Char))
    (cache : List (List Char × List Char)) (t : List Char) :
    sanskritNormalizeStateful l cfg false parser cache t
      = (cache, applySteps (sanskritSteps l cfg) t) := rfl

theorem NuktaOk.tail {n : Char} {p : Char × Char} {ps : List (Char × Char)}
    (h : NuktaOk n (p :: ps)) : NuktaOk n ps := by
  refine ⟨?_, ?_, ?_, ?_, ?_⟩
  · exact fun q hq => h.base_ne q (.tail _ hq)
  · exact fun q hq => h.comp_ne q (.tail _ hq)
  · exact fun q hq r hr => h.disj q (.tail _ hq) r (.tail _ hr)
  · exact (List.nodup_cons.1 h.base_nodup).2
  · exact (List.nodup_cons.1 h.comp_nodup).2

theorem lookup_none_of_ne {a : Char} {ps : List (Char × Char)}
    (h : ∀ q ∈ ps, a ≠ q.1) : List.lookup a ps = none := by
  induction ps with
  | nil => rfl
  | cons q qs ih =>
    rw [List.lookup]
    have hne : (a == q.1) = false := by
      simp only [beq_eq_false_iff_ne, ne_eq]
      exact h q (.head _)
    rw [hne]
    exact ih (fun r hr => h r (.tail _ hr))

theorem lookupPair_mem {a v : Char} {ps : List (Char × Char)}
    (h : List.lookup a ps = some v) : (a, v) ∈ ps := by
  induction ps with
  | nil => cases h
  | cons q qs ih =>
    rw [List.lookup] at h
    cases hq : a == q.1 with
    | true =>
      rw [hq] at h
      cases h
      have : a = q.1 := by simpa using hq
      rw [this]
      exact .head _
    | false =>
      rw [hq] at h
      exact .tail _ (ih h)

theorem lookup_of_mem_base {a v : Char} {ps : List (Char × Char)}
    (hmem : (a, v) ∈ ps) (hnd : (ps.map Prod.fst).Nodup) :
    List.lookup a ps = some v := by
  induction ps with
  | nil => cases hmem
  | cons q qs ih =>
    rw [List.map_cons, List.nodup_cons] at hnd
    rcases List.mem_cons.1 hmem with heq | hmem2
    · rw [← heq, List.lookup, beq_self_eq_true]
    · rw [List.lookup]
      have hne : (a == q.1) = false := by
        simp only [beq_eq_false_iff_ne, ne_eq]
        intro hav
        exact hnd.1 (hav ▸ List.mem_map.2 ⟨(a, v), hmem2, rfl⟩)
      rw [hne]
      exact ih hmem2 hnd.2

theorem lookup_swap_of_mem {a v : Char} {ps : List (Char × Char)}
    (hmem : (a, v) ∈ ps) (hnd : (ps.map Prod.snd).Nodup) :
    List.lookup v (ps.map (fun p => (p.2, p.1))) = some a := by
  induction ps with
  | nil => cases hmem
  | cons q qs ih =>
    rw [List.map_cons, List.nodup_cons] at hnd
    rcases List.mem_cons.1 hmem with heq | hmem2
    · rw [← heq]
      rw [List.map_cons, List.lookup, beq_self_eq_true]
    · rw [List.map_cons, List.lookup]
      have hne : (v == q.2) = false := by
        simp only [beq_eq_false_iff_ne, ne_eq]
        intro hv
        exact hnd.1 (hv ▸ List.mem_map.2 ⟨(a, v), hmem2, rfl⟩)
      rw [hne]
      exact ih hmem2 hnd.2

theorem specRec_nil_pairs (n : Char) : ∀ t : List Char, specRec n [] t = t
  | [] => by rw [specRec.eq_1]
  | [c] => by rw [specRec.eq_2]
  | c :: d :: rest => by
    rw [specRec.eq_3]
    by_cases hd : d = n
    · rw [if_pos hd]
      show c :: specRec n [] (d :: rest) = _
      rw [specRec_nil_pairs n (d :: rest)]
    · rw [if_neg hd, specRec_nil_pairs n (d :: rest)]
termination_by t => t.length

theorem specRec_cons_none {n c : Char} {ps : List (Char × Char)}
    (hl : List.lookup c ps = none) (X : List Char) :
    specRec n ps (c :: X) = c :: specRec n ps X := by
  cases X with
  | nil => rw [specRec.eq_2, specRec.eq_1]
  | cons x xs =>
    rw [specRec.eq_3]
    by_cases hx : x = n
    · rw [if_pos hx, hl]
    · rw [if_neg hx]

theorem specRec_cons_head_ne {n c : Char} {ps : List (Char × Char)} {X : List Char}
    (hx : X.head? ≠ some n) :
    specRec n ps (c :: X) = c :: specRec n ps X := by
  cases X with
  | nil => rw [specRec.eq_2, specRec.eq_1]
  | cons x xs =>
    rw [specRec.eq_3, if_neg]
    intro hxn
    exact hx (by rw [hxn]; rfl)

theorem specRec_head_ne {n : Char} {ps : List (Char × Char)} {u : List Char}
    (hcomp : ∀ q ∈ ps, q.2 ≠ n) (hu : u.head? ≠ some n) :
    (specRec n ps u).head? ≠ some n := by
  cases u with
  | nil => simp [specRec]
  | cons c X =>
    cases X with
    | nil =>
      rw [specRec.eq_2]
      exact hu
    | cons d rest =>
      rw [specRec.eq_3]
      by_cases hd : d = n
      · rw [if_pos hd]
        cases hl : List.lookup c ps with
        | some comp =>
          simp only [List.head?_cons, ne_eq, Option.some.injEq]
          exact hcomp _ (lookupPair_mem hl)
        | none => exact hu
      · rw [if_neg hd]
        exact hu

theorem specRec_single_comp {n : Char} {p : Char × Char} {ps : List (Char × Char)}
    (hpn : p.1 ≠ n) (hco_n : p.2 ≠ n)
    (hco_base : ∀ q ∈ ps, p.2 ≠ q.1)
    (hn_base : ∀ q ∈ ps, n ≠ q.1) :
    ∀ t : List Char, specRec n ps (specRec n [p] t) = specRec n (p :: ps) t
  | [] => by rw [specRec.eq_1, specRec.eq_1, specRec.eq_1]
  | [c] => by
    rw [specRec.eq_2, specRec.eq_2, specRec.eq_2]
  | c :: d :: rest => by
    by_cases hd : d = n
    · by_cases hc : c = p.1
      · -- the single pair fires: inner gives `p.2 :: ...`
        have hin : specRec n [p] (c :: d :: rest) = p.2 :: specRec n [p] rest := by
          rw [specRec.eq_3, if_pos hd]
          have : List.lookup c [p] = some p.2 := by
            rw [hc, List.lookup, beq_self_eq_true]
          rw [this]
        rw [hin, specRec_cons_none (lookup_none_of_ne hco_base),
            specRec_single_comp hpn hco_n hco_base hn_base rest]
        rw [specRec.eq_3, if_pos hd]
        have : List.lookup c (p :: ps) = some p.2 := by
          rw [hc, List.lookup, beq_self_eq_true]
        rw [this]
      · -- the single pair does not fire at `c`
        have hlone : List.lookup c [p] = none := by
          rw [List.lookup]
          have : (c == p.1) = false := by
            simp only [beq_eq_false_iff_ne, ne_eq]; exact hc
          rw [this]; rfl
        have hin : specRec n [p] (c :: d :: rest) =
            c :: d :: specRec n [p] rest := by
          rw [specRec_cons_none hlone]
          have hlon : List.lookup d [p] = none := by
            rw [List.lookup]
            have : (d == p.1) = false := by
              simp only [beq_eq_false_iff_ne, ne_eq]
              rw [hd]
              intro hnp
              exact hpn hnp.symm
            rw [this]; rfl
          rw [specRec_cons_none hlon]
        rw [hin]
        cases hl : List.lookup c ps with
        | some comp =>
          have houter : specRec n ps (c :: d :: specRec n [p] rest) =
              comp :: specRec n ps (specRec n [p] rest) := by
            rw [specRec.eq_3, if_pos hd, hl]
          rw [houter, specRec_single_comp hpn hco_n hco_base hn_base rest]
          have hl2 : List.lookup c (p :: ps) = some comp := by
            rw [List.lookup]
            have : (c == p.1) = false := by
              simp only [beq_eq_false_iff_ne, ne_eq]; exact hc
            rw [this, hl]
          rw [specRec.eq_3, if_pos hd, hl2]
        | none =>
          have houter : specRec n ps (c :: d :: specRec n [p] rest) =
              c :: d :: specRec n ps (specRec n [p] rest) := by
            rw [specRec_cons_none hl, hd,
                specRec_cons_none (lookup_none_of_ne hn_base)]
          rw [houter, specRec_single_comp hpn hco_n hco_base hn_base rest]
          have hl2 : List.lookup c (p :: ps) = none := by
            rw [List.lookup]
            have : (c == p.1) = false := by
              simp only [beq_eq_false_iff_ne, ne_eq]; exact hc
            rw [this, hl]
          have hnp : List.lookup n (p :: ps) = none := by
            refine lookup_none_of_ne ?_
            intro q hq
            rcases List.mem_cons.1 hq with rfl | hq2
            · exact fun hh => hpn hh.symm
            · exact hn_base q hq2
          rw [specRec_cons_none hl2, hd, specRec_cons_none hnp]
    · -- `d` is not the nukta: both scans emit `c` and continue at `d`
      have hin : specRec n [p] (c :: d :: rest) =
          c :: specRec n [p] (d :: rest) := by
        rw [specRec.eq_3, if_neg hd]
      rw [hin]
      have hhead : (specRec n [p] (d :: rest)).head? ≠ some n := by
        refine specRec_head_ne ?_ ?_
        · intro q hq
          rcases List.mem_cons.1 hq with rfl | hq2
          · exact hco_n
          · cases hq2
        · simp only [List.head?_cons, ne_eq, Option.some.injEq]
          exact hd
      rw [specRec_cons_head_ne hhead,
          specRec_single_comp hpn hco_n hco_base hn_base (d :: rest)]
      rw [specRec.eq_3, if_neg hd]
termination_by t => t.length

/-- A single `str.replace(base+nukta, composite)` pass is the one-pass scan
for the singleton table. -/
theorem pyReplace_pair_spec (b n co : Char) :
    ∀ t : List Char, pyReplace [b, n] [co] t = specRec n [(b, co)] t
  | [] => by rw [pyReplace.eq_2, specRec.eq_1]
  | [c] => by
    rw [pyReplace.eq_3, if_neg, pyReplace.eq_2, specRec.eq_2]
    rintro ⟨-, hpre⟩
    simp [List.isPrefixOf] at hpre
  | c :: d :: rest => by
    by_cases hm : b = c ∧ d = n
    · rw [pyReplace.eq_3, if_pos ⟨hm.1, by simp [List.isPrefixOf, hm.2]⟩]
      have hdrop : (d :: rest).drop [n].length = rest := rfl
      rw [hdrop, pyReplace_pair_spec b n co rest]
      rw [specRec.eq_3, if_pos hm.2]
      have : List.lookup c [(b, co)] = some co := by
        rw [List.lookup]
        have : (c == b) = true := by simp [hm.1.symm]
        rw [this]
      rw [this]
      rfl
    · rw [pyReplace.eq_3, if_neg, pyReplace_pair_spec b n co (d :: rest)]
      · rw [specRec.eq_3]
        by_cases hd : d = n
        · rw [if_pos hd]
          have : List.lookup c [(b, co)] = none := by
            rw [List.lookup]
            have hcb : (c == b) = false := by
              simp only [beq_eq_false_iff_ne, ne_eq]
              intro hcb
              exact hm ⟨hcb.symm, hd⟩
            rw [hcb]; rfl
          rw [this]
        · rw [if_neg hd]
      · rintro ⟨hbc, hpre⟩
        simp only [List.isPrefixOf, Bool.and_eq_true, beq_iff_eq] at hpre
        exact hm ⟨hbc, hpre.1.symm⟩
termination_by t => t.length

/-- The sequential recompose passes equal the one-pass scan. -/
theorem nuktaRecompose_eq_spec {n : Char} {pairs : List (Char × Char)}
    (hok : NuktaOk n pairs) (t : List Char) :
    nuktaRecompose n pairs t = specRec n pairs t := by
  induction pairs generalizing t with
  | nil => rw [specRec_nil_pairs]; rfl
  | cons p ps ih =>
    have h1 : nuktaRecompose n (p :: ps) t =
        nuktaRecompose n ps (pyReplace [p.1, n] [p.2] t) := rfl
    rw [h1, ih hok.tail, pyReplace_pair_spec]
    refine specRec_single_comp ?_ ?_ ?_ ?_ t
    · exact hok.base_ne p (.head _)
    · exact hok.comp_ne p (.head _)
    · exact fun q hq => Ne.symm (hok.disj q (.tail _ hq) p (.head _))
    · exact fun q hq => Ne.symm (hok.base_ne q (.tail _ hq))

theorem lookup_swap_none {a : Char} {ps : List (Char × Char)}
    (h : ∀ q ∈ ps, a ≠ q.2) :
    List.lookup a (ps.map (fun p => (p.2, p.1))) = none := by
  refine lookup_none_of_ne ?_
  intro r hr
  rcases List.mem_map.1 hr with ⟨q, hq, rfl⟩
  exact h q hq

theorem lookup_swap_mem {a v : Char} {ps : List (Char × Char)}
    (h : List.lookup a (ps.map (fun p => (p.2, p.1))) = some v) : (v, a) ∈ ps := by
  have hmem := lookupPair_mem h
  rcases List.mem_map.1 hmem with ⟨q, hq, heq⟩
  have h1 : q.2 = a := congrArg Prod.fst heq
  have h2 : q.1 = v := congrArg Prod.snd heq
  have : q = (v, a) := by
    cases q
    simp only at h1 h2
    rw [h1, h2]
  exact this ▸ hq

theorem specDec_cons (n c : Char) (pairs : List (Char × Char)) (X : List Char) :
    specDec n pairs (c :: X) = decExpand n pairs c ++ specDec n pairs X :=
  List.flatMap_cons _ _ _

/-- A single `str.replace(composite, base+nukta)` pass, character-wise. -/
theorem pyReplace_single_flatMap (a : Char) (d : List Char) :
    ∀ t : List Char, pyReplace [a] d t = t.flatMap (fun c => if c = a then d else [c])
  | [] => by rw [pyReplace.eq_2, List.flatMap_nil]
  | c :: cs => by
    rw [List.flatMap_cons]
    by_cases hc : a = c
    · rw [pyReplace.eq_3, if_pos ⟨hc, by simp [List.isPrefixOf]⟩]
      have : cs.drop ([] : List Char).length = cs := rfl
      rw [this, pyReplace_single_flatMap a d cs, if_pos hc.symm]
    · rw [pyReplace.eq_3, if_neg (by rintro ⟨hh, -⟩; exact hc hh),
          pyReplace_single_flatMap a d cs, if_neg (fun hh => hc hh.symm)]
      rfl

/-- The sequential decompose passes equal the character-wise expansion. -/
theorem nuktaDecompose_eq_spec {n : Char} {pairs : List (Char × Char)}
    (hok : NuktaOk n pairs) (t : List Char) :
    nuktaDecompose n pairs t = specDec n pairs t := by
  induction pairs generalizing t with
  | nil =>
    show t = t.flatMap (fun c => [c])
    simp
  | cons p ps ih =>
    have h1 : nuktaDecompose n (p :: ps) t =
        nuktaDecompose n ps (pyReplace [p.2] [p.1, n] t) := rfl
    rw [h1, ih hok.tail, pyReplace_single_flatMap]
    show (t.flatMap _).flatMap _ = _
    rw [List.bind_assoc]
    refine congrArg _ (funext fun c => ?_)
    by_cases hc : c = p.2
    · rw [if_pos hc]
      have hb : decExpand n ps p.1 = [p.1] := by
        rw [decExpand, lookup_swap_none]
        intro q hq
        exact hok.disj p (.head _) q (.tail _ hq)
      have hn : decExpand n ps n = [n] := by
        rw [decExpand, lookup_swap_none]
        intro q hq
        exact Ne.symm (hok.comp_ne q (.tail _ hq))
      have hrhs : decExpand n (p :: ps) c = [p.1, n] := by
        rw [decExpand, hc, List.map_cons, List.lookup, beq_self_eq_true]
      rw [hrhs]
      rw [show ([p.1, n] : List Char).flatMap (decExpand n ps)
            = decExpand n ps p.1 ++ decExpand n ps n ++ [] from by
          rw [List.flatMap_cons, List.flatMap_cons, List.flatMap_nil, List.append_assoc]]
      rw [hb, hn]
      rfl
    · rw [if_neg hc, List.flatMap_singleton]
      have hrhs : decExpand n (p :: ps) c = decExpand n ps c := by
        rw [decExpand, decExpand, List.map_cons, List.lookup]
        have : (c == p.2) = false := by
          simp only [beq_eq_false_iff_ne, ne_eq]; exact hc
        rw [this]
      rw [hrhs]

/-- `decompose (recompose x) = decompose x`, on the one-pass specifications. -/
theorem specDec_specRec {n : Char} {pairs : List (Char × Char)} (hok : NuktaOk n pairs) :
    ∀ t : List Char, specDec n pairs (specRec n pairs t) = specDec n pairs t
  | [] => by rw [specRec.eq_1]
  | [c] => by rw [specRec.eq_2]
  | c :: d :: rest => by
    by_cases hd : d = n
    · cases hl : List.lookup c pairs with
      | some comp =>
        have hmem := lookupPair_mem hl
        have hin : specRec n pairs (c :: d :: rest) = comp :: specRec n pairs rest := by
          rw [specRec.eq_3, if_pos hd, hl]
        rw [hin, specDec_cons, specDec_specRec hok rest,
            specDec_cons, specDec_cons]
        have h1 : decExpand n pairs comp = [c, n] := by
          rw [decExpand, lookup_swap_of_mem hmem hok.comp_nodup]
        have h2 : decExpand n pairs c = [c] := by
          rw [decExpand, lookup_swap_none]
          intro q hq
          exact hok.disj (c, comp) hmem q hq
        have h3 : decExpand n pairs d = [n] := by
          rw [hd, decExpand, lookup_swap_none]
          intro q hq
          exact Ne.symm (hok.comp_ne q hq)
        rw [h1, h2, h3]
        rfl
      | none =>
        have hin : specRec n pairs (c :: d :: rest) =
            c :: specRec n pairs (d :: rest) := by
          rw [specRec.eq_3, if_pos hd, hl]
        rw [hin, specDec_cons, specDec_specRec hok (d :: rest), specDec_cons,
            specDec_cons, specDec_cons]
    · have hin : specRec n pairs (c :: d :: rest) =
          c :: specRec n pairs (d :: rest) := by
        rw [specRec.eq_3, if_neg hd]
      rw [hin, specDec_cons, specDec_specRec hok (d :: rest), specDec_cons,
          specDec_cons, specDec_cons]
termination_by t => t.length

/-- `recompose (decompose x) = recompose x`, on the one-pass specifications. -/
theorem specRec_specDec {n : Char} {pairs : List (Char × Char)} (hok : NuktaOk n pairs) :
    ∀ t : List Char, specRec n pairs (specDec n pairs t) = specRec n pairs t
  | [] => rfl
  | c :: rest => by
    cases hcomp : List.lookup c (pairs.map (fun p => (p.2, p.1))) with
    | some b =>
      have hmem : (b, c) ∈ pairs := lookup_swap_mem hcomp
      have hdec : specDec n pairs (c :: rest) = b :: n :: specDec n pairs rest := by
        rw [specDec_cons, decExpand, hcomp]
        rfl
      have hlb : List.lookup b pairs = some c := lookup_of_mem_base hmem hok.base_nodup
      have hlc : List.lookup c pairs = none := by
        refine lookup_none_of_ne ?_
        intro q hq
        exact Ne.symm (hok.disj q hq (b, c) hmem)
      rw [hdec]
      have hL : specRec n pairs (b :: n :: specDec n pairs rest) =
          c :: specRec n pairs (specDec n pairs rest) := by
        rw [specRec.eq_3, if_pos rfl, hlb]
      rw [hL, specRec_specDec hok rest, specRec_cons_none hlc]
    | none =>
      have hdec : specDec n pairs (c :: rest) = c :: specDec n pairs rest := by
        rw [specDec_cons, decExpand, hcomp]
        rfl
      rw [hdec]
      cases rest with
      | nil =>
        show specRec n pairs [c] = specRec n pairs [c]
        rfl
      | cons r rs =>
        by_cases hr : r = n
        · have hdr : specDec n pairs (r :: rs) = n :: specDec n pairs rs := by
            rw [specDec_cons, decExpand, hr, lookup_swap_none
              (fun q hq => Ne.symm (hok.comp_ne q hq))]
            rfl
          rw [hdr]
          cases hlc : List.lookup c pairs with
          | some comp =>
            have hL : specRec n pairs (c :: n :: specDec n pairs rs) =
                comp :: specRec n pairs (specDec n pairs rs) := by
              rw [specRec.eq_3, if_pos rfl, hlc]
            have hR : specRec n pairs (c :: r :: rs) =
                comp :: specRec n pairs rs := by
              rw [specRec.eq_3, if_pos hr, hlc]
            rw [hL, hR, specRec_specDec hok rs]
          | none =>
            have hln : List.lookup n pairs = none :=
              lookup_none_of_ne (fun q hq => Ne.symm (hok.base_ne q hq))
            rw [specRec_cons_none hlc, specRec_cons_none hln,
                specRec_specDec hok rs, specRec_cons_none hlc, hr,
                specRec_cons_none hln]
        · have hhd : (specDec n pairs (r :: rs)).head? ≠ some n := by
            rw [specDec_cons]
            cases hre : List.lookup r (pairs.map (fun p => (p.2, p.1))) with
            | some b2 =>
              have hmem2 : (b2, r) ∈ pairs := lookup_swap_mem hre
              rw [decExpand, hre]
              simp only [List.cons_append, List.head?_cons, ne_eq, Option.some.injEq]
              exact hok.base_ne (b2, r) hmem2
            | none =>
              rw [decExpand, hre]
              simp only [List.singleton_append, List.head?_cons, ne_eq, Option.some.injEq]
              exact hr
          rw [specRec_cons_head_ne hhd, specRec_specDec hok (r :: rs)]
          have hR : specRec n pairs (c :: r :: rs) = c :: specRec n pairs (r :: rs) := by
            rw [specRec.eq_3, if_neg hr]
          rw [hR]
termination_by t => t.length

/-- Recomposition is idempotent, on the one-pass specification. -/
theorem specRec_specRec {n : Char} {pairs : List (Char × Char)} (hok : NuktaOk n pairs) :
    ∀ t : List Char, specRec n pairs (specRec n pairs t) = specRec n pairs t
  | [] => by simp only [specRec.eq_1]
  | [c] => by simp only [specRec.eq_2]
  | c :: d :: rest => by
    by_cases hd : d = n
    · cases hl : List.lookup c pairs with
      | some comp =>
        have hmem := lookupPair_mem hl
        have hin : specRec n pairs (c :: d :: rest) = comp :: specRec n pairs rest := by
          rw [specRec.eq_3, if_pos hd, hl]
        have hlcomp : List.lookup comp pairs = none := by
          refine lookup_none_of_ne ?_
          intro q hq
          exact Ne.symm (hok.disj q hq (c, comp) hmem)
        rw [hin, specRec_cons_none hlcomp, specRec_specRec hok rest]
      | none =>
        have hin : specRec n pairs (c :: d :: rest) =
            c :: specRec n pairs (d :: rest) := by
          rw [specRec.eq_3, if_pos hd, hl]
        rw [hin, specRec_cons_none hl, specRec_specRec hok (d :: rest)]
    · have hin : specRec n pairs (c :: d :: rest) =
          c :: specRec n pairs (d :: rest) := by
        rw [specRec.eq_3, if_neg hd]
      have hhd : (specRec n pairs (d :: rest)).head? ≠ some n := by
        refine specRec_head_ne hok.comp_ne ?_
        simp only [List.head?_cons, ne_eq, Option.some.injEq]
        exact hd
      rw [hin, specRec_cons_head_ne hhd, specRec_specRec hok (d :: rest)]
termination_by t => t.length

theorem nuktaOk_all : ∀ s : NuktaScript, NuktaOk (nuktaCharOf s) (nuktaPairsOf s) := by
  intro s
  cases s <;> exact ⟨by decide, by decide, by decide, by decide, by decide⟩

/-- Claim C7: for every script with a declared nukta-composite set
(Devanagari, Gurmukhi, Oriya, Bengali) and every text over that script's
composite alphabet (in fact, for every text), the decompose and recompose
nukta modes are inverses — `decompose (recompose x) = decompose x` and
`recompose (decompose x) = recompose x` — and recompose is idempotent. -/
theorem c7_nukta_modes_inverse :
    ∀ (s : NuktaScript) (x : List Char),
      (∀ c ∈ x, c = nuktaCharOf s ∨ c ∈ (nuktaPairsOf s).map Prod.fst
        ∨ c ∈ (nuktaPairsOf s).map Prod.snd) →
      nuktaDecompose (nuktaCharOf s) (nuktaPairsOf s)
          (nuktaRecompose (nuktaCharOf s) (nuktaPairsOf s) x)
        = nuktaDecompose (nuktaCharOf s) (nuktaPairsOf s) x
      ∧ nuktaRecompose (nuktaCharOf s) (nuktaPairsOf s)
          (nuktaDecompose (nuktaCharOf s) (nuktaPairsOf s) x)
        = nuktaRecompose (nuktaCharOf s) (nuktaPairsOf s) x
      ∧ nuktaRecompose (nuktaCharOf s) (nuktaPairsOf s)
          (nuktaRecompose (nuktaCharOf s) (nuktaPairsOf s) x)
        = nuktaRecompose (nuktaCharOf s) (nuktaPairsOf s) x := by
  intro s x hx
  have hok := nuktaOk_all s
  refine ⟨?_, ?_, ?_⟩
  · rw [nuktaRecompose_eq_spec hok, nuktaDecompose_eq_spec hok,
        nuktaDecompose_eq_spec hok]
    exact specDec_specRec hok x
  · rw [nuktaDecompose_eq_spec hok, nuktaRecompose_eq_spec hok,
        nuktaRecompose_eq_spec hok]
    exact specRec_specDec hok x
  · rw [nuktaRecompose_eq_spec hok, nuktaRecompose_eq_spec hok]
    exact specRec_specRec hok x

unseal pyReplace subPat subEnd in
/-- Witness for claim C7, at the Devanagari text `क ़ ऩ` (a bare base, a
nukta, and a precomposed composite). -/
theorem c7_nukta_modes_witness :
    (∀ c ∈ ['क', '़', 'ऩ'], c = nuktaCharOf NuktaScript.devanagari
        ∨ c ∈ (nuktaPairsOf NuktaScript.devanagari).map Prod.fst
        ∨ c ∈ (nuktaPairsOf NuktaScript.devanagari).map Prod.snd)
    ∧ (nuktaDecompose '़' devaNuktaPairs
          (nuktaRecompose '़' devaNuktaPairs ['क', '़', 'ऩ'])
        = nuktaDecompose '़' devaNuktaPairs ['क', '़', 'ऩ']
      ∧ nuktaRecompose '़' devaNuktaPairs
          (nuktaDecompose '़' devaNuktaPairs ['क', '़', 'ऩ'])
        = nuktaRecompose '़' devaNuktaPairs ['क', '़', 'ऩ']
      ∧ nuktaRecompose '़' devaNuktaPairs
          (nuktaRecompose '़' devaNuktaPairs ['क', '़', 'ऩ'])
        = nuktaRecompose '़' devaNuktaPairs ['क', '़', 'ऩ']) :=
  ⟨by decide,
   c7_nukta_modes_inverse NuktaScript.devanagari ['क', '़', 'ऩ'] (by decide)⟩

theorem not_mem_applySteps_of_allIntro {c : Char} {L : List Step} {t : List Char}
    (ht : c ∉ t) (hL : c ∉ allIntro L) : c ∉ applySteps L t := by
  refine not_mem_applySteps ht ?_
  intro s hs hmem
  exact hL (List.mem_flatMap.2 ⟨s, hs, hmem⟩)

theorem not_mem_allIntro_append {c : Char} {A B : List Step}
    (h1 : c ∉ allIntro A) (h2 : c ∉ allIntro B) : c ∉ allIntro (A ++ B) := by
  rw [allIntro, List.flatMap_append]
  intro h
  rcases List.mem_append.1 h with h | h
  · exact h1 h
  · exact h2 h

theorem not_mem_allIntro_ite {c : Char} {P : Prop} [Decidable P] {A B : List Step}
    (h1 : c ∉ allIntro A) (h2 : c ∉ allIntro B) :
    c ∉ allIntro (if P then A else B) := by
  by_cases hp : P
  · rw [if_pos hp]; exact h1
  · rw [if_neg hp]; exact h2

theorem removed_absent_allIntro {c : Char} {L L1 L2 : List Step} {dst t : List Char}
    (hsplit : L = L1 ++ Step.repl [c] dst :: L2) (hdst : c ∉ dst)
    (hL2 : c ∉ allIntro L2) : c ∉ applySteps L t := by
  refine removed_absent hsplit hdst ?_
  intro s hs hmem
  exact hL2 (List.mem_flatMap.2 ⟨s, hs, hmem⟩)

/-- Variant of `removed_absent_allIntro` taking the split lists positionally. -/
theorem removed_absent_split (L1 L2 : List Step) {c : Char} {L : List Step}
    {dst t : List Char} (hsplit : L = L1 ++ Step.repl [c] dst :: L2)
    (hdst : c ∉ dst) (hL2 : c ∉ allIntro L2) : c ∉ applySteps L t :=
  removed_absent_allIntro hsplit hdst hL2

theorem forbidden4_cases {c : Char} (hc : c ∈ forbidden4) :
    c = '‌' ∨ c = '‍' ∨ c = '﻿' ∨ c = '￾' := by
  simp only [forbidden4, List.mem_cons, List.not_mem_nil, or_false] at hc
  exact hc

/-- The cleanup head of `BaseNormalizer.normalize` removes each of the four
characters, and no later cleanup step reintroduces them. -/
theorem cleanup_removes_forbidden {c : Char} (hc : c ∈ forbidden4)
    (u : List Char) : c ∉ applySteps cleanupSteps u := by
  rcases forbidden4_cases hc with rfl | rfl | rfl | rfl
  · exact removed_absent_split
      ([.repl ['﻿'] [], .repl ['￾'] [], .repl ['⁠'] [],
              .repl ['­'] [], .repl ['​'] [' '], .repl [' '] [' ']])
      ([.repl ['‍'] []]) rfl (by decide) (by decide)
  · exact removed_absent_split
      ([.repl ['﻿'] [], .repl ['￾'] [], .repl ['⁠'] [],
              .repl ['­'] [], .repl ['​'] [' '], .repl [' '] [' '],
              .repl ['‌'] []])
      ([]) rfl (by decide) (by decide)
  · exact removed_absent_split
      ([])
      ([.repl ['￾'] [], .repl ['⁠'] [], .repl ['­'] [],
              .repl ['​'] [' '], .repl [' '] [' '],
              .repl ['‌'] [], .repl ['‍'] []]) rfl (by decide) (by decide)
  · exact removed_absent_split
      ([.repl ['﻿'] []])
      ([.repl ['⁠'] [], .repl ['­'] [],
              .repl ['​'] [' '], .repl [' '] [' '],
              .repl ['‌'] [], .repl ['‍'] []]) rfl (by decide) (by decide)

theorem nasalSteps_avoid {c : Char} (hc : c ∈ forbidden4) (l : ILang) (mode : String) :
    c ∉ allIntro (nasalSteps l mode) := by
  rw [nasalSteps]
  apply not_mem_allIntro_ite
  · rcases forbidden4_cases hc with rfl | rfl | rfl | rfl <;> (revert l; decide)
  · apply not_mem_allIntro_ite
    · rcases forbidden4_cases hc with rfl | rfl | rfl | rfl <;> (revert l; decide)
    · apply not_mem_allIntro_ite
      · rcases forbidden4_cases hc with rfl | rfl | rfl | rfl <;> (revert l; decide)
      · rcases forbidden4_cases hc with rfl | rfl | rfl | rfl <;> decide

theorem baseTail_avoid {c : Char} (hc : c ∈ forbidden4) (l : ILang) (cfg : Config) :
    c ∉ allIntro (baseTailSteps l cfg) := by
  rw [baseTailSteps]
  refine not_mem_allIntro_append
    (not_mem_allIntro_append
      (not_mem_allIntro_append (not_mem_allIntro_append ?_ ?_) ?_) ?_) ?_
  · rcases forbidden4_cases hc with rfl | rfl | rfl | rfl <;> decide
  · apply not_mem_allIntro_ite
    · rcases forbidden4_cases hc with rfl | rfl | rfl | rfl <;> (revert l; decide)
    · rcases forbidden4_cases hc with rfl | rfl | rfl | rfl <;> decide
  · exact nasalSteps_avoid hc l cfg.nasals_mode
  · apply not_mem_allIntro_ite
    · rcases forbidden4_cases hc with rfl | rfl | rfl | rfl <;> (revert l; decide)
    · rcases forbidden4_cases hc with rfl | rfl | rfl | rfl <;> decide
  · rw [numeralSteps]
    apply not_mem_allIntro_ite
    · rcases forbidden4_cases hc with rfl | rfl | rfl | rfl <;> (revert l; decide)
    apply not_mem_allIntro_ite
    · rcases forbidden4_cases hc with rfl | rfl | rfl | rfl <;> (revert l; decide)
    · rcases forbidden4_cases hc with rfl | rfl | rfl | rfl <;> decide

/-- Output of the base pipeline contains none of the four characters. -/
theorem baseSteps_out_avoid {c : Char} (hc : c ∈ forbidden4) (l : ILang)
    (cfg : Config) (u : List Char) : c ∉ applySteps (baseSteps l cfg) u := by
  rw [baseSteps, applySteps_append]
  exact not_mem_applySteps_of_allIntro (cleanup_removes_forbidden hc u)
    (baseTail_avoid hc l cfg)

theorem nuktaMode_avoid {c : Char} (hc : c ∈ forbidden4) (s : NuktaScript)
    (cfg : Config) :
    c ∉ allIntro (nuktaModeSteps (nuktaCharOf s) (nuktaPairsOf s) cfg) := by
  rw [nuktaModeSteps]
  apply not_mem_allIntro_ite
  · cases s <;> (rcases forbidden4_cases hc with rfl | rfl | rfl | rfl <;> decide)
  apply not_mem_allIntro_ite <;>
    (cases s <;> (rcases forbidden4_cases hc with rfl | rfl | rfl | rfl <;> decide))

theorem colonSteps_avoid {c : Char} (hc : c ∈ forbidden4) (cfg : Config)
    (lo hi : Nat) (vis : Char) (hvis : vis ∉ forbidden4) :
    c ∉ allIntro (colonSteps cfg lo hi vis) := by
  rw [colonSteps]
  apply not_mem_allIntro_ite
  · intro hmem
    simp only [allIntro, colonStep, List.flatMap_cons, List.flatMap_nil, introChars,
      tmplLits, List.foldr, List.append_nil, List.mem_cons, List.not_mem_nil,
      or_false] at hmem
    rcases hmem with h2 | h2
    · rcases forbidden4_cases hc with rfl | rfl | rfl | rfl <;>
        exact absurd h2 (by decide)
    · exact hvis (h2 ▸ hc)
  · simp [allIntro]

theorem devanagari_out_avoid {c : Char} (hc : c ∈ forbidden4) (l : ILang)
    (cfg : Config) (x : List Char) : c ∉ applySteps (devanagariSteps l cfg) x := by
  rw [devanagariSteps, applySteps_append, applySteps_append, applySteps_append,
      applySteps_append]
  refine not_mem_applySteps_of_allIntro (not_mem_applySteps_of_allIntro
    (not_mem_applySteps_of_allIntro (not_mem_applySteps_of_allIntro
      (baseSteps_out_avoid hc l cfg x) ?_) ?_) ?_) ?_
  · rcases forbidden4_cases hc with rfl | rfl | rfl | rfl <;> decide
  · exact nuktaMode_avoid hc NuktaScript.devanagari cfg
  · rcases forbidden4_cases hc with rfl | rfl | rfl | rfl <;> decide
  · exact colonSteps_avoid hc cfg _ _ _ (by decide)

theorem kashmiri1995_avoid {c : Char} (hc : c ∈ forbidden4) (b : Bool) :
    c ∉ allIntro (kashmiri1995to2002Steps b) := by
  cases b <;> (rcases forbidden4_cases hc with rfl | rfl | rfl | rfl <;> decide)

theorem kashmiri_out_avoid {c : Char} (hc : c ∈ forbidden4) (l : ILang)
    (cfg : Config) (x : List Char) : c ∉ applySteps (kashmiriSteps l cfg) x := by
  rw [kashmiriSteps, applySteps_append, applySteps_append]
  refine not_mem_applySteps_of_allIntro (not_mem_applySteps_of_allIntro
    (devanagari_out_avoid hc l cfg x) ?_) ?_
  · exact not_mem_allIntro_ite (kashmiri1995_avoid hc _) (by simp [allIntro])
  · apply not_mem_allIntro_ite
    · rcases forbidden4_cases hc with rfl | rfl | rfl | rfl <;> decide
    · simp [allIntro]

theorem sanskrit_out_avoid {c : Char} (hc : c ∈ forbidden4) (l : ILang)
    (cfg : Config) (x : List Char) : c ∉ applySteps (sanskritSteps l cfg) x := by
  rw [sanskritSteps, applySteps_append]
  refine not_mem_applySteps_of_allIntro (devanagari_out_avoid hc l cfg x) ?_
  apply not_mem_allIntro_ite
  · rcases forbidden4_cases hc with rfl | rfl | rfl | rfl <;> decide
  · simp [allIntro]

theorem gurmukhi_out_avoid {c : Char} (hc : c ∈ forbidden4) (l : ILang)
    (cfg : Config) (x : List Char) : c ∉ applySteps (gurmukhiSteps l cfg) x := by
  rw [gurmukhiSteps, applySteps_append, applySteps_append, applySteps_append,
      applySteps_append]
  refine not_mem_applySteps_of_allIntro (not_mem_applySteps_of_allIntro
    (not_mem_applySteps_of_allIntro (baseSteps_out_avoid hc l cfg _) ?_) ?_) ?_
  · exact nuktaMode_avoid hc NuktaScript.gurmukhi cfg
  · rcases forbidden4_cases hc with rfl | rfl | rfl | rfl <;> decide
  · exact colonSteps_avoid hc cfg _ _ _ (by decide)

theorem gujarati_out_avoid {c : Char} (hc : c ∈ forbidden4) (l : ILang)
    (cfg : Config) (x : List Char) : c ∉ applySteps (gujaratiSteps l cfg) x := by
  rw [gujaratiSteps, applySteps_append, applySteps_append, applySteps_append]
  refine not_mem_applySteps_of_allIntro (not_mem_applySteps_of_allIntro
    (not_mem_applySteps_of_allIntro (baseSteps_out_avoid hc l cfg x) ?_) ?_) ?_
  · apply not_mem_allIntro_ite <;>
      (rcases forbidden4_cases hc with rfl | rfl | rfl | rfl <;> decide)
  · rcases forbidden4_cases hc with rfl | rfl | rfl | rfl <;> decide
  · exact colonSteps_avoid hc cfg _ _ _ (by decide)

theorem oriya_out_avoid {c : Char} (hc : c ∈ forbidden4) (l : ILang)
    (cfg : Config) (x : List Char) : c ∉ applySteps (oriyaSteps l cfg) x := by
  rw [oriyaSteps, applySteps_append, applySteps_append, applySteps_append,
      applySteps_append, applySteps_append, applySteps_append]
  refine not_mem_applySteps_of_allIntro (not_mem_applySteps_of_allIntro
    (not_mem_applySteps_of_allIntro (not_mem_applySteps_of_allIntro
      (not_mem_applySteps_of_allIntro (not_mem_applySteps_of_allIntro
        (baseSteps_out_avoid hc l cfg x) ?_) ?_) ?_) ?_) ?_) ?_
  · rcases forbidden4_cases hc with rfl | rfl | rfl | rfl <;> decide
  · exact nuktaMode_avoid hc NuktaScript.oriya cfg
  · rcases forbidden4_cases hc with rfl | rfl | rfl | rfl <;> decide
  · apply not_mem_allIntro_ite
    · rcases forbidden4_cases hc with rfl | rfl | rfl | rfl <;> decide
    · simp [allIntro]
  · rcases forbidden4_cases hc with rfl | rfl | rfl | rfl <;> decide
  · exact colonSteps_avoid hc cfg _ _ _ (by decide)

theorem bengali_out_avoid {c : Char} (hc : c ∈ forbidden4) (l : ILang)
    (cfg : Config) (x : List Char) : c ∉ applySteps (bengaliSteps l cfg) x := by
  rw [bengaliSteps, applySteps_append, applySteps_append, applySteps_append,
      applySteps_append]
  refine not_mem_applySteps_of_allIntro (not_mem_applySteps_of_allIntro
    (not_mem_applySteps_of_allIntro (not_mem_applySteps_of_allIntro
      (baseSteps_out_avoid hc l cfg x) ?_) ?_) ?_) ?_
  · exact nuktaMode_avoid hc NuktaScript.bengali cfg
  · apply not_mem_allIntro_ite
    · apply not_mem_allIntro_ite <;>
        (rcases forbidden4_cases hc with rfl | rfl | rfl | rfl <;> decide)
    · simp [allIntro]
  · rcases forbidden4_cases hc with rfl | rfl | rfl | rfl <;> decide
  · exact colonSteps_avoid hc cfg _ _ _ (by decide)

theorem tamil_out_avoid {c : Char} (hc : c ∈ forbidden4) (l : ILang)
    (cfg : Config) (x : List Char) : c ∉ applySteps (tamilSteps l cfg) x := by
  rw [tamilSteps, applySteps_append, applySteps_append, applySteps_append]
  refine not_mem_applySteps_of_allIntro (not_mem_applySteps_of_allIntro
    (not_mem_applySteps_of_allIntro (baseSteps_out_avoid hc l cfg x) ?_) ?_) ?_
  · rcases forbidden4_cases hc with rfl | rfl | rfl | rfl <;> decide
  · apply not_mem_allIntro_ite <;>
      (rcases forbidden4_cases hc with rfl | rfl | rfl | rfl <;> decide)
  · apply not_mem_allIntro_ite <;>
      (rcases forbidden4_cases hc with rfl | rfl | rfl | rfl <;> decide)

theorem telugu_out_avoid {c : Char} (hc : c ∈ forbidden4) (l : ILang)
    (cfg : Config) (x : List Char) : c ∉ applySteps (teluguSteps l cfg) x := by
  rw [teluguSteps, applySteps_append, applySteps_append]
  refine not_mem_applySteps_of_allIntro (not_mem_applySteps_of_allIntro
    (baseSteps_out_avoid hc l cfg x) ?_) ?_
  · rcases forbidden4_cases hc with rfl | rfl | rfl | rfl <;> decide
  · exact colonSteps_avoid hc cfg _ _ _ (by decide)

theorem kannada_out_avoid {c : Char} (hc : c ∈ forbidden4) (l : ILang)
    (cfg : Config) (x : List Char) : c ∉ applySteps (kannadaSteps l cfg) x := by
  rw [kannadaSteps, applySteps_append, applySteps_append, applySteps_append]
  refine not_mem_applySteps_of_allIntro (not_mem_applySteps_of_allIntro
    (not_mem_applySteps_of_allIntro (baseSteps_out_avoid hc l cfg x) ?_) ?_) ?_
  · apply not_mem_allIntro_ite <;>
      (rcases forbidden4_cases hc with rfl | rfl | rfl | rfl <;> decide)
  · rcases forbidden4_cases hc with rfl | rfl | rfl | rfl <;> decide
  · exact colonSteps_avoid hc cfg _ _ _ (by decide)

theorem malayalam_out_avoid {c : Char} (hc : c ∈ forbidden4) (l : ILang)
    (cfg : Config) (x : List Char) : c ∉ applySteps (malayalamSteps l cfg) x := by
  rw [malayalamSteps, applySteps_append, applySteps_append, applySteps_append,
      applySteps_append, applySteps_append, applySteps_append, applySteps_append,
      applySteps_append, applySteps_append]
  refine not_mem_applySteps_of_allIntro (not_mem_applySteps_of_allIntro
    (not_mem_applySteps_of_allIntro (not_mem_applySteps_of_allIntro
      (not_mem_applySteps_of_allIntro (not_mem_applySteps_of_allIntro
        (not_mem_applySteps_of_allIntro (baseSteps_out_avoid hc l cfg _) ?_) ?_)
          ?_) ?_) ?_) ?_) ?_
  · rcases forbidden4_cases hc with rfl | rfl | rfl | rfl <;> decide
  · apply not_mem_allIntro_ite
    · rcases forbidden4_cases hc with rfl | rfl | rfl | rfl <;> decide
    · simp [allIntro]
  · apply not_mem_allIntro_ite
    · rcases forbidden4_cases hc with rfl | rfl | rfl | rfl <;> decide
    · simp [allIntro]
  · apply not_mem_allIntro_ite
    · rcases forbidden4_cases hc with rfl | rfl | rfl | rfl <;> decide
    apply not_mem_allIntro_ite
    · rcases forbidden4_cases hc with rfl | rfl | rfl | rfl <;> decide
    apply not_mem_allIntro_ite
    · rcases forbidden4_cases hc with rfl | rfl | rfl | rfl <;> decide
    · simp [allIntro]
  · rcases forbidden4_cases hc with rfl | rfl | rfl | rfl <;> decide
  · apply not_mem_allIntro_ite
    · rcases forbidden4_cases hc with rfl | rfl | rfl | rfl <;> decide
    · simp [allIntro]
  · exact colonSteps_avoid hc cfg _ _ _ (by decide)

theorem sinhala_out_avoid {c : Char} (hc : c ∈ forbidden4) (l : ILang)
    (cfg : Config) (x : List Char) : c ∉ applySteps (sinhalaSteps l cfg) x := by
  rw [sinhalaSteps, applySteps_append, applySteps_append, applySteps_append,
      applySteps_append]
  refine not_mem_applySteps_of_allIntro (not_mem_applySteps_of_allIntro
    (not_mem_applySteps_of_allIntro (not_mem_applySteps_of_allIntro
      (baseSteps_out_avoid hc l cfg x) ?_) ?_) ?_) ?_
  · rcases forbidden4_cases hc with rfl | rfl | rfl | rfl <;> decide
  · apply not_mem_allIntro_ite <;>
      (rcases forbidden4_cases hc with rfl | rfl | rfl | rfl <;> decide)
  · apply not_mem_allIntro_ite <;>
      (rcases forbidden4_cases hc with rfl | rfl | rfl | rfl <;> decide)
  · exact colonSteps_avoid hc cfg _ _ _ (by decide)

theorem brahmic_out_avoid {c : Char} (hc : c ∈ forbidden4) (n : BrahmicNorm)
    (l : ILang) (cfg : Config) (x : List Char) :
    c ∉ brahmicNormalize n l cfg x := by
  cases n with
  | base => exact baseSteps_out_avoid hc l cfg x
  | devanagari => exact devanagari_out_avoid hc l cfg x
  | kashmiri => exact kashmiri_out_avoid hc l cfg x
  | sanskrit => exact sanskrit_out_avoid hc l cfg x
  | gurmukhi => exact gurmukhi_out_avoid hc l cfg x
  | gujarati => exact gujarati_out_avoid hc l cfg x
  | oriya => exact oriya_out_avoid hc l cfg x
  | bengali => exact bengali_out_avoid hc l cfg x
  | tamil => exact tamil_out_avoid hc l cfg x
  | telugu => exact telugu_out_avoid hc l cfg x
  | kannada => exact kannada_out_avoid hc l cfg x
  | malayalam => exact malayalam_out_avoid hc l cfg x
  | sinhala => exact sinhala_out_avoid hc l cfg x

/-- Claim C4 (amended): for every `BaseNormalizer`-family (Brahmic-script)
normalizer, every language, every configuration and every input, the output of
`normalize` contains zero occurrences of ZWNJ (U+200C), ZWJ (U+200D) and the
byte-order marks (U+FEFF, U+FFFE): the common cleanup runs inside
`BaseNormalizer.normalize` and no later stage can reintroduce them. -/
theorem c4_brahmic_cleanup_removes (n : BrahmicNorm) (l : ILang) (cfg : Config)
    (x : List Char) :
    '‌' ∉ brahmicNormalize n l cfg x ∧ '‍' ∉ brahmicNormalize n l cfg x
    ∧ '﻿' ∉ brahmicNormalize n l cfg x ∧ '￾' ∉ brahmicNormalize n l cfg x :=
  ⟨brahmic_out_avoid (by decide) n l cfg x,
   brahmic_out_avoid (by decide) n l cfg x,
   brahmic_out_avoid (by decide) n l cfg x,
   brahmic_out_avoid (by decide) n l cfg x⟩

unseal pyReplace subPat subEnd in
/-- Claim C4, counterexample: the Urdu/Shahmukhi normalizer (the factory's
pipeline for `"ur"`) does not run the common cleanup stage: with the external
UrduHack collaborators instantiated as the identity (allowed by their opaque
pure contract), normalizing the string consisting of one zero-width non-joiner
(U+200C) returns it unchanged — the output contains a ZWNJ occurrence, so the
claim fails for this script's normalizer. -/
theorem c4_urdu_keeps_zwnj :
    getNormalizerKind "ur" = NormalizerKind.urduShahmukhi
    ∧ urduShahmukhiNormalize "ur" {} id id id id id ['‌'] = ['‌']
    ∧ '‌' ∈ urduShahmukhiNormalize "ur" {} id id id id id ['‌'] := by
  refine ⟨by decide, by decide, by decide⟩

/-! ### Claim C5: strict anusvara and its reverse -/

theorem nasalCharFacts : ∀ (l : ILang), ∀ k : Nat, k < 6 →
    offsetChar l 0x02 ≠ offsetChar l (sigN k)
    ∧ offsetChar l 0x4d ≠ offsetChar l (sigN k)
    ∧ offsetChar l (sigN k) ≠ offsetChar l 0x02
    ∧ offsetChar l 0x4d ≠ offsetChar l 0x02
    ∧ charRange (scriptBase l + sigLo k) (scriptBase l + sigHi k)
        (offsetChar l 0x02) = false
    ∧ (∀ j : Nat, j < 6 →
        charRange (scriptBase l + sigLo j) (scriptBase l + sigHi j)
          (offsetChar l (sigN k)) = false)
    ∧ (∀ j : Nat, j < 6 → j ≠ k →
        offsetChar l (sigN j) ≠ offsetChar l (sigN k)) := by
  decide

theorem sigDisjoint : ∀ j : Nat, j < 6 → ∀ k : Nat, k < 6 →
    j = k ∨ (j = 3 ∧ k = 4) ∨ (j = 4 ∧ k = 3)
    ∨ sigHi j < sigLo k ∨ sigHi k < sigLo j := by
  decide

theorem charRange_false_of {lo hi lo2 hi2 : Nat} {c : Char}
    (h : charRange lo hi c = true) (hlt : hi < lo2 ∨ hi2 < lo) :
    charRange lo2 hi2 c = false := by
  simp only [charRange, decide_eq_true_eq, decide_eq_false_iff_not] at h ⊢
  omega

theorem lit_match (c : Char) : Atom.matches (.lit c) c = true := by
  simp [Atom.matches]

theorem lit_not_match {c x : Char} (h : x ≠ c) :
    ¬ (Atom.matches (.lit c) x = true) := by
  simp [Atom.matches]
  exact h

theorem matchPat_two (hal c : Char) (cr : Char → Bool) (rest : List Char)
    (hc : cr c = true) :
    matchPat [.lit hal, .cls cr] (hal :: c :: rest) = some ([hal, c], rest) := by
  simp [matchPat, Atom.matches, hc]

theorem matchPat_one (c : Char) (cr : Char → Bool) (rest : List Char)
    (hc : cr c = true) :
    matchPat [.cls cr] (c :: rest) = some ([c], rest) := by
  simp [matchPat, Atom.matches, hc]

theorem matchPat_one_none (c : Char) (cr : Char → Bool) (rest : List Char)
    (hc : cr c = false) :
    matchPat [.cls cr] (c :: rest) = none := by
  simp [matchPat, Atom.matches, hc]

theorem mrenderF_cons (l : ILang) (f : Nat → Bool) (p : Nat × Char)
    (L : List (Nat × Char)) :
    mrenderF l f (p :: L)
    = (if f p.1 then [offsetChar l 0x02, p.2]
       else [offsetChar l (sigN p.1), offsetChar l 0x4d, p.2]) ++ mrenderF l f L := rfl

theorem mrenderR_cons (l : ILang) (f : Nat → Bool) (p : Nat × Char)
    (L : List (Nat × Char)) :
    mrenderR l f (p :: L)
    = (if f p.1 then [offsetChar l (sigN p.1), offsetChar l 0x4d, p.2]
       else [offsetChar l 0x02, p.2]) ++ mrenderR l f L := rfl

theorem bool_eq_false_of_not {b : Bool} (h : ¬ (b = true)) : b = false := by
  cases b
  · rfl
  · exact absurd rfl h

theorem subPat_cons_match {a0 : Atom} {pat : List Atom} {tmpl : List TmplItem}
    {c : Char} {cs m rest : List Char} (hc : a0.matches c = true)
    (hm : matchPat pat cs = some (m, rest)) :
    subPat a0 pat tmpl (c :: cs) = renderTmpl tmpl (c :: m) ++ subPat a0 pat tmpl rest := by
  rw [subPat, if_pos hc, hm]

theorem subPat_cons_nomatch {a0 : Atom} {pat : List Atom} {tmpl : List TmplItem}
    {c : Char} {cs : List Char} (hc : a0.matches c = true)
    (hm : matchPat pat cs = none) :
    subPat a0 pat tmpl (c :: cs) = c :: subPat a0 pat tmpl cs := by
  rw [subPat, if_pos hc, hm]

theorem subPat_cons_skip {a0 : Atom} {pat : List Atom} {tmpl : List TmplItem}
    {c : Char} {cs : List Char} (hc : ¬ (a0.matches c = true)) :
    subPat a0 pat tmpl (c :: cs) = c :: subPat a0 pat tmpl cs := by
  rw [subPat, if_neg hc]

/-- One strict-anusvara pass: the pattern for nasal offset `nkO` converts
exactly the blocks marked by `h` and leaves all others untouched. -/
theorem strict_pass (l : ILang) (nkO : Nat) (cr : Char → Bool) (f h : Nat → Bool)
    (hAnus : offsetChar l 0x02 ≠ offsetChar l nkO)
    (hHal : offsetChar l 0x4d ≠ offsetChar l nkO) :
    ∀ L : List (Nat × Char),
      (∀ p ∈ L, p.2 ≠ offsetChar l nkO
        ∧ (f p.1 = false →
            if offsetChar l (sigN p.1) = offsetChar l nkO
            then cr p.2 = true ∧ h p.1 = true
            else h p.1 = false)) →
      subPat (.lit (offsetChar l nkO))
        [.lit (offsetChar l 0x4d), .cls cr]
        [.lit (offsetChar l 0x02), .cap 2]
        (mrenderF l f L)
      = mrenderF l (fun i => f i || h i) L
  | [], _ => by
    have h1 : mrenderF l f [] = [] := rfl
    have h2 : mrenderF l (fun i => f i || h i) [] = [] := rfl
    rw [h1, h2, subPat]
  | p :: L, hL => by
    have hrec := strict_pass l nkO cr f h hAnus hHal L
      (fun q hq => hL q (List.mem_cons_of_mem _ hq))
    have hp := hL p (List.mem_cons_self _ _)
    simp only [mrenderF_cons]
    by_cases hf : f p.1 = true
    · rw [if_pos hf, if_pos (by rw [hf]; rfl)]
      simp only [List.cons_append, List.nil_append]
      rw [subPat_cons_skip (lit_not_match hAnus),
        subPat_cons_skip (lit_not_match hp.1), hrec]
    · have hf0 : f p.1 = false := bool_eq_false_of_not hf
      have hcond := hp.2 hf0
      rw [if_neg hf]
      by_cases hn : offsetChar l (sigN p.1) = offsetChar l nkO
      · rw [if_pos hn] at hcond
        rw [if_pos (by rw [hf0, hcond.2]; rfl)]
        simp only [List.cons_append, List.nil_append]
        rw [hn, subPat_cons_match (lit_match _) (matchPat_two _ _ _ _ hcond.1),
          hrec]
        rfl
      · rw [if_neg hn] at hcond
        rw [if_neg (by rw [hf0, hcond]; simp)]
        simp only [List.cons_append, List.nil_append]
        rw [subPat_cons_skip (lit_not_match hn),
          subPat_cons_skip (lit_not_match hHal),
          subPat_cons_skip (lit_not_match hp.1), hrec]
termination_by L _ => L.length

/-- One nasal-consonant pass: the pattern with class `cr` converts exactly
the anusvara blocks marked by `h` back to nasal+halant+consonant. -/
theorem nasal_pass (l : ILang) (nkO : Nat) (cr : Char → Bool) (f h : Nat → Bool)
    (hHal : offsetChar l 0x4d ≠ offsetChar l 0x02) :
    ∀ L : List (Nat × Char),
      (∀ p ∈ L, p.2 ≠ offsetChar l 0x02
        ∧ offsetChar l (sigN p.1) ≠ offsetChar l 0x02
        ∧ (f p.1 = false →
            if cr p.2 = true
            then offsetChar l nkO = offsetChar l (sigN p.1) ∧ h p.1 = true
            else h p.1 = false)) →
      subPat (.lit (offsetChar l 0x02)) [.cls cr]
        [.lit (offsetChar l nkO), .lit (offsetChar l 0x4d), .cap 1]
        (mrenderR l f L)
      = mrenderR l (fun i => f i || h i) L
  | [], _ => by
    have h1 : mrenderR l f [] = [] := rfl
    have h2 : mrenderR l (fun i => f i || h i) [] = [] := rfl
    rw [h1, h2, subPat]
  | p :: L, hL => by
    have hrec := nasal_pass l nkO cr f h hHal L
      (fun q hq => hL q (List.mem_cons_of_mem _ hq))
    have hp := hL p (List.mem_cons_self _ _)
    simp only [mrenderR_cons]
    by_cases hf : f p.1 = true
    · rw [if_pos hf, if_pos (by rw [hf]; rfl)]
      simp only [List.cons_append, List.nil_append]
      rw [subPat_cons_skip (lit_not_match hp.2.1),
        subPat_cons_skip (lit_not_match hHal),
        subPat_cons_skip (lit_not_match hp.1), hrec]
    · have hf0 : f p.1 = false := bool_eq_false_of_not hf
      have hcond := hp.2.2 hf0
      rw [if_neg hf]
      by_cases hcr : cr p.2 = true
      · rw [if_pos hcr] at hcond
        rw [if_pos (by rw [hf0, hcond.2]; rfl)]
        rw [← hcond.1]
        simp only [List.cons_append, List.nil_append]
        rw [subPat_cons_match (lit_match _) (matchPat_one _ _ _ hcr), hrec]
        rfl
      · have hcr0 : cr p.2 = false := bool_eq_false_of_not hcr
        rw [if_neg hcr] at hcond
        rw [if_neg (by rw [hf0, hcond]; simp)]
        simp only [List.cons_append, List.nil_append]
        rw [subPat_cons_nomatch (lit_match _) (matchPat_one_none _ _ _ hcr0),
          subPat_cons_skip (lit_not_match hp.1), hrec]
termination_by L _ => L.length

/-- The per-block side condition of the strict pass for row `k` holds on any
well-formed sequence list. -/
theorem strict_cond (l : ILang) (k : Fin 6) (L : List (Nat × Char))
    (hL : ∀ p ∈ L, rowOk l p) :
    ∀ p ∈ L, p.2 ≠ offsetChar l (sigN k.1)
      ∧ ((decide (p.1 < k.1) : Bool) = false →
          if offsetChar l (sigN p.1) = offsetChar l (sigN k.1)
          then charRange (scriptBase l + sigLo k.1) (scriptBase l + sigHi k.1) p.2
                 = true
               ∧ (p.1 == k.1) = true
          else (p.1 == k.1) = false) := by
  intro p hp
  obtain ⟨h6, _, hcr⟩ := hL p hp
  constructor
  · intro heq
    have hfact := (nasalCharFacts l k.1 k.2).2.2.2.2.2.1 p.1 h6
    rw [heq] at hcr
    rw [hfact] at hcr
    cases hcr
  · intro _
    by_cases hik : p.1 = k.1
    · rw [hik]
      rw [if_pos rfl]
      refine ⟨?_, by simp⟩
      rw [hik] at hcr
      exact hcr
    · rw [if_neg ((nasalCharFacts l k.1 k.2).2.2.2.2.2.2 p.1 h6 hik)]
      simp [hik]

/-- The per-block side condition of the reverse pass for row `k` holds on any
well-formed sequence list, with `f` marking the rows below `k`. -/
theorem nasal_cond (l : ILang) (k : Fin 6) (L : List (Nat × Char))
    (hL : ∀ p ∈ L, rowOk l p) :
    ∀ p ∈ L, p.2 ≠ offsetChar l 0x02
      ∧ offsetChar l (sigN p.1) ≠ offsetChar l 0x02
      ∧ ((decide (p.1 < k.1) : Bool) = false →
          if charRange (scriptBase l + sigLo k.1) (scriptBase l + sigHi k.1) p.2
               = true
          then offsetChar l (sigN k.1) = offsetChar l (sigN p.1)
               ∧ (p.1 == k.1) = true
          else (p.1 == k.1) = false) := by
  intro p hp
  obtain ⟨h6, h4, hcr⟩ := hL p hp
  refine ⟨?_, (nasalCharFacts l p.1 h6).2.2.1, ?_⟩
  · intro heq
    have hfact := (nasalCharFacts l p.1 h6).2.2.2.2.1
    rw [heq] at hcr
    rw [hfact] at hcr
    cases hcr
  · intro hge
    have hge2 : ¬ (p.1 < k.1) := by simpa using hge
    by_cases hik : p.1 = k.1
    · rw [hik] at hcr
      rw [if_pos hcr, hik]
      exact ⟨rfl, by simp⟩
    · have hdisj := sigDisjoint p.1 h6 k.1 k.2
      have hcf : charRange (scriptBase l + sigLo k.1) (scriptBase l + sigHi k.1)
          p.2 = false := by
        rcases hdisj with h | h | h | h | h
        · exact absurd h hik
        · exact absurd (show p.1 < k.1 by omega) hge2
        · exact absurd h.1 h4
        · exact charRange_false_of hcr (Or.inl (by omega))
        · exact charRange_false_of hcr (Or.inr (by omega))
      rw [if_neg (by rw [hcf]; simp)]
      simp [hik]

theorem chainStep (k m : Nat) (hm : m = k + 1) :
    (fun i => decide (i < k) || (i == k)) = (fun i : Nat => decide (i < m)) := by
  subst hm
  funext i
  by_cases h1 : i < k
  · simp [h1, Nat.lt_succ_of_lt h1]
  · by_cases h2 : i = k
    · simp [h2]
    · simp [h1, h2, show ¬ (i < k + 1) by omega]

theorem mrenderF_zero (l : ILang) (L : List (Nat × Char)) :
    renderNasal l L = mrenderF l (fun i => decide (i < 0)) L := by
  simp [renderNasal, mrenderF]

theorem mrenderR_zero (l : ILang) (L : List (Nat × Char)) :
    L.flatMap (fun p => [offsetChar l 0x02, p.2])
    = mrenderR l (fun i => decide (i < 0)) L := by
  simp [mrenderR]

theorem mrenderF_final (l : ILang) :
    ∀ L : List (Nat × Char), (∀ p ∈ L, p.1 < 6) →
      mrenderF l (fun i => decide (i < 6)) L
      = L.flatMap (fun p => [offsetChar l 0x02, p.2])
  | [], _ => rfl
  | p :: L, h => by
    rw [mrenderF_cons, if_pos (by simpa using h p (List.mem_cons_self _ _)),
      mrenderF_final l L (fun q hq => h q (List.mem_cons_of_mem _ hq))]
    rfl

theorem mrenderR_final (l : ILang) :
    ∀ L : List (Nat × Char), (∀ p ∈ L, p.1 < 6) →
      mrenderR l (fun i => decide (i < 6)) L = renderNasal l L
  | [], _ => rfl
  | p :: L, h => by
    rw [mrenderR_cons, if_pos (by simpa using h p (List.mem_cons_self _ _)),
      mrenderR_final l L (fun q hq => h q (List.mem_cons_of_mem _ hq))]
    rfl

/-- The six strict-anusvara passes convert a well-formed sequence list to pure
anusvara+consonant blocks. -/
theorem strict_all (l : ILang) (L : List (Nat × Char))
    (hL : ∀ p ∈ L, rowOk l p) :
    applySteps (toAnusvaaraStrictSteps l) (renderNasal l L)
    = L.flatMap (fun p => [offsetChar l 0x02, p.2]) := by
  have e0 := strict_pass l 0x19
    (charRange (scriptBase l + 0x15) (scriptBase l + 0x18))
    (fun i => decide (i < 0)) (fun i => i == 0)
    ((nasalCharFacts l 0 (by omega)).1) ((nasalCharFacts l 0 (by omega)).2.1)
    L (strict_cond l ⟨0, by omega⟩ L hL)
  have e1 := strict_pass l 0x1e
    (charRange (scriptBase l + 0x1a) (scriptBase l + 0x1d))
    (fun i => decide (i < 1)) (fun i => i == 1)
    ((nasalCharFacts l 1 (by omega)).1) ((nasalCharFacts l 1 (by omega)).2.1)
    L (strict_cond l ⟨1, by omega⟩ L hL)
  have e2 := strict_pass l 0x23
    (charRange (scriptBase l + 0x1f) (scriptBase l + 0x22))
    (fun i => decide (i < 2)) (fun i => i == 2)
    ((nasalCharFacts l 2 (by omega)).1) ((nasalCharFacts l 2 (by omega)).2.1)
    L (strict_cond l ⟨2, by omega⟩ L hL)
  have e3 := strict_pass l 0x28
    (charRange (scriptBase l + 0x24) (scriptBase l + 0x27))
    (fun i => decide (i < 3)) (fun i => i == 3)
    ((nasalCharFacts l 3 (by omega)).1) ((nasalCharFacts l 3 (by omega)).2.1)
    L (strict_cond l ⟨3, by omega⟩ L hL)
  have e4 := strict_pass l 0x29
    (charRange (scriptBase l + 0x24) (scriptBase l + 0x27))
    (fun i => decide (i < 4)) (fun i => i == 4)
    ((nasalCharFacts l 4 (by omega)).1) ((nasalCharFacts l 4 (by omega)).2.1)
    L (strict_cond l ⟨4, by omega⟩ L hL)
  have e5 := strict_pass l 0x2e
    (charRange (scriptBase l + 0x2a) (scriptBase l + 0x2d))
    (fun i => decide (i < 5)) (fun i => i == 5)
    ((nasalCharFacts l 5 (by omega)).1) ((nasalCharFacts l 5 (by omega)).2.1)
    L (strict_cond l ⟨5, by omega⟩ L hL)
  simp only [toAnusvaaraStrictSteps, patSignatures, List.map_cons, List.map_nil,
    applySteps, List.foldl_cons, List.foldl_nil, applyStep]
  rw [mrenderF_zero l L]
  rw [e0, chainStep 0 1 (by omega), e1, chainStep 1 2 (by omega), e2,
    chainStep 2 3 (by omega), e3, chainStep 3 4 (by omega), e4,
    chainStep 4 5 (by omega), e5, chainStep 5 6 (by omega)]
  exact mrenderF_final l L (fun p hp => (hL p hp).1)

/-- The six nasal-consonant passes convert pure anusvara+consonant blocks back
to the original sequences when no row-4 block is present. -/
theorem nasal_all (l : ILang) (L : List (Nat × Char))
    (hL : ∀ p ∈ L, rowOk l p) :
    applySteps (toNasalConsonantsSteps l)
      (L.flatMap (fun p => [offsetChar l 0x02, p.2]))
    = renderNasal l L := by
  have hHal := (nasalCharFacts l 0 (by omega)).2.2.2.1
  have e0 := nasal_pass l 0x19
    (charRange (scriptBase l + 0x15) (scriptBase l + 0x18))
    (fun i => decide (i < 0)) (fun i => i == 0) hHal
    L (nasal_cond l ⟨0, by omega⟩ L hL)
  have e1 := nasal_pass l 0x1e
    (charRange (scriptBase l + 0x1a) (scriptBase l + 0x1d))
    (fun i => decide (i < 1)) (fun i => i == 1) hHal
    L (nasal_cond l ⟨1, by omega⟩ L hL)
  have e2 := nasal_pass l 0x23
    (charRange (scriptBase l + 0x1f) (scriptBase l + 0x22))
    (fun i => decide (i < 2)) (fun i => i == 2) hHal
    L (nasal_cond l ⟨2, by omega⟩ L hL)
  have e3 := nasal_pass l 0x28
    (charRange (scriptBase l + 0x24) (scriptBase l + 0x27))
    (fun i => decide (i < 3)) (fun i => i == 3) hHal
    L (nasal_cond l ⟨3, by omega⟩ L hL)
  have e4 := nasal_pass l 0x29
    (charRange (scriptBase l + 0x24) (scriptBase l + 0x27))
    (fun i => decide (i < 4)) (fun i => i == 4) hHal
    L (nasal_cond l ⟨4, by omega⟩ L hL)
  have e5 := nasal_pass l 0x2e
    (charRange (scriptBase l + 0x2a) (scriptBase l + 0x2d))
    (fun i => decide (i < 5)) (fun i => i == 5) hHal
    L (nasal_cond l ⟨5, by omega⟩ L hL)
  simp only [toNasalConsonantsSteps, patSignatures, List.map_cons, List.map_nil,
    applySteps, List.foldl_cons, List.foldl_nil, applyStep]
  rw [mrenderR_zero l L]
  rw [e0, chainStep 0 1 (by omega), e1, chainStep 1 2 (by omega), e2,
    chainStep 2 3 (by omega), e3, chainStep 3 4 (by omega), e4,
    chainStep 4 5 (by omega), e5, chainStep 5 6 (by omega)]
  exact mrenderR_final l L (fun p hp => (hL p hp).1)

/-- Claim C5 (amended): on text consisting only of homorganic
nasal+halant+consonant sequences drawn from the pattern rows other than row 4
(the row whose character class duplicates row 3's), `_to_anusvaara_strict`
followed by `_to_nasal_consonants` is the identity, for every language. -/
theorem c5_strict_anusvara_roundtrip (l : ILang) (L : List (Nat × Char))
    (hL : ∀ p ∈ L, rowOk l p) :
    applySteps (toNasalConsonantsSteps l)
      (applySteps (toAnusvaaraStrictSteps l) (renderNasal l L))
    = renderNasal l L := by
  rw [strict_all l L hL, nasal_all l L hL]

/-- Witness for C5 at a concrete input: the Hindi sequence ka-row nasal +
halant + ka (row 0) round-trips. -/
theorem c5_strict_anusvara_roundtrip_witness :
    (∀ p ∈ [((0 : Nat), offsetChar ILang.hi 0x15)], rowOk ILang.hi p)
    ∧ applySteps (toNasalConsonantsSteps ILang.hi)
        (applySteps (toAnusvaaraStrictSteps ILang.hi)
          (renderNasal ILang.hi [((0 : Nat), offsetChar ILang.hi 0x15)]))
      = renderNasal ILang.hi [((0 : Nat), offsetChar ILang.hi 0x15)] :=
  ⟨by decide,
   c5_strict_anusvara_roundtrip ILang.hi
     [((0 : Nat), offsetChar ILang.hi 0x15)] (by decide)⟩

unseal pyReplace subPat subEnd in
/-- Claim C5, counterexample to the unrestricted statement: the Hindi text
consisting of the single homorganic sequence nnna+halant+ta (row 4 of the
code's own pattern table: U+0929, U+094D, U+0924) is turned by
`_to_anusvaara_strict` into anusvara+ta, but `_to_nasal_consonants` rewrites
that to na+halant+ta (row 3, whose pattern shares row 4's class and is applied
first), so the round trip is not the identity. -/
theorem c5_row4_not_restored :
    charRange (scriptBase ILang.hi + sigLo 4) (scriptBase ILang.hi + sigHi 4)
        (offsetChar ILang.hi 0x24) = true
    ∧ applySteps (toNasalConsonantsSteps ILang.hi)
        (applySteps (toAnusvaaraStrictSteps ILang.hi)
          (renderNasal ILang.hi [((4 : Nat), offsetChar ILang.hi 0x24)]))
      = renderNasal ILang.hi [((3 : Nat), offsetChar ILang.hi 0x24)]
    ∧ renderNasal ILang.hi [((3 : Nat), offsetChar ILang.hi 0x24)]
      ≠ renderNasal ILang.hi [((4 : Nat), offsetChar ILang.hi 0x24)] := by
  refine ⟨by decide, by decide, by decide⟩

/-! ### Claim C8: vowel-ending augmentation -/

theorem splitChar_no_sep (sep : Char) : ∀ w : List Char, sep ∉ w →
    splitChar sep w = [w]
  | [], _ => rfl
  | c :: cs, h => by
    have ih := splitChar_no_sep sep cs (fun hm => h (List.mem_cons_of_mem _ hm))
    rw [splitChar, ih]
    show (if c = sep then [[], cs] else [c :: cs]) = [c :: cs]
    rw [if_neg (fun hc : c = sep => h (hc ▸ List.mem_cons_self _ _))]

theorem vowelEnd_apply (ic : Char → Bool) (app : List Char) (w : List Char)
    (hw : Char.ofNat 32 ∉ w) :
    applyStep (.vowelEnd ic app) w
    = (if (w.getLast?.map ic).getD false then w ++ app else w) := by
  show joinChar (Char.ofNat 32) ((splitChar (Char.ofNat 32) w).map
    (fun v => if (v.getLast?.map ic).getD false then v ++ app else v)) = _
  rw [splitChar_no_sep _ _ hw]
  rfl

theorem dravidian_not_ie : ∀ l : ILang, isDravidian l = true → isIE l = false := by
  decide

/-- Claim C8: with `do_normalize_vowel_ending` enabled the stage is part of
the pipeline and acts on the space-delimited words: a word ending in a
consonant gets a halant appended for Indo-Aryan languages and the inherent-a
vowel sign (offset 0x3e) appended for Dravidian languages, and a word ending
in a dependent vowel sign (offsets 0x3e-0x4c) or the halant (0x4d) is
returned unchanged. -/
theorem c8_vowel_ending_words (l : ILang) (cfg : Config) (w : List Char)
    (c : Char) (hw : Char.ofNat 32 ∉ w) (hlast : w.getLast? = some c) :
    (cfg.do_normalize_vowel_ending = true → vowelEndingStep l ∈ baseSteps l cfg)
    ∧ (isIE l = true → isConsonant l c = true →
        applyStep (vowelEndingStep l) w = w ++ [offsetChar l 0x4d])
    ∧ (isDravidian l = true → isConsonant l c = true →
        applyStep (vowelEndingStep l) w = w ++ [offsetChar l 0x3e])
    ∧ (scriptBase l + 0x3e ≤ c.toNat → c.toNat ≤ scriptBase l + 0x4d →
        applyStep (vowelEndingStep l) w = w) := by
  refine ⟨?_, ?_, ?_, ?_⟩
  · intro hflag
    simp [baseSteps, baseTailSteps, hflag]
  · intro hIE hc
    rw [vowelEndingStep, if_pos hIE, vowelEnd_apply _ _ _ hw]
    simp [hlast, hc]
  · intro hD hc
    rw [vowelEndingStep, if_neg (by rw [dravidian_not_ie l hD]; simp),
      if_pos hD, vowelEnd_apply _ _ _ hw]
    simp [hlast, hc]
  · intro h1 h2
    have hic : isConsonant l c = false := by
      simp [isConsonant]
      omega
    by_cases hIE : isIE l = true
    · rw [vowelEndingStep, if_pos hIE, vowelEnd_apply _ _ _ hw]
      simp [hlast, hic]
    · by_cases hD : isDravidian l = true
      · rw [vowelEndingStep, if_neg hIE, if_pos hD, vowelEnd_apply _ _ _ hw]
        simp [hlast, hic]
      · rw [vowelEndingStep, if_neg hIE, if_neg hD, vowelEnd_apply _ _ _ hw]
        simp [hlast, hic]

/-- Witness for C8 at a concrete input: the Tamil word consisting of the bare
consonant ka (no space, ending in a consonant). -/
theorem c8_vowel_ending_words_witness :
    (Char.ofNat 32 ∉ [offsetChar ILang.ta 0x15])
    ∧ [offsetChar ILang.ta 0x15].getLast? = some (offsetChar ILang.ta 0x15)
    ∧ ((vowelEndingCfg.do_normalize_vowel_ending = true →
          vowelEndingStep ILang.ta ∈ baseSteps ILang.ta vowelEndingCfg)
      ∧ (isIE ILang.ta = true → isConsonant ILang.ta (offsetChar ILang.ta 0x15) = true →
          applyStep (vowelEndingStep ILang.ta) [offsetChar ILang.ta 0x15]
          = [offsetChar ILang.ta 0x15] ++ [offsetChar ILang.ta 0x4d])
      ∧ (isDravidian ILang.ta = true → isConsonant ILang.ta (offsetChar ILang.ta 0x15) = true →
          applyStep (vowelEndingStep ILang.ta) [offsetChar ILang.ta 0x15]
          = [offsetChar ILang.ta 0x15] ++ [offsetChar ILang.ta 0x3e])
      ∧ (scriptBase ILang.ta + 0x3e ≤ (offsetChar ILang.ta 0x15).toNat →
          (offsetChar ILang.ta 0x15).toNat ≤ scriptBase ILang.ta + 0x4d →
          applyStep (vowelEndingStep ILang.ta) [offsetChar ILang.ta 0x15]
          = [offsetChar ILang.ta 0x15])) :=
  ⟨by decide, by decide,
   c8_vowel_ending_words ILang.ta vowelEndingCfg [offsetChar ILang.ta 0x15]
     (offsetChar ILang.ta 0x15) (by decide) (by decide)⟩

/-! ### Claim C1: idempotence -/

theorem hasSub_cons_of (p : List Char) (c : Char) (t : List Char)
    (h : hasSub p t = true) : hasSub p (c :: t) = true := by
  rw [hasSub, h, Bool.or_true]

theorem hasSub_of_drop : ∀ (t : List Char) (n : Nat) {p : List Char},
    hasSub p (t.drop n) = true → hasSub p t = true
  | _, 0, _, h => by simpa using h
  | [], _ + 1, _, h => by simpa using h
  | c :: cs, n + 1, p, h => by
    rw [List.drop_succ_cons] at h
    exact hasSub_cons_of _ _ _ (hasSub_of_drop cs n h)

theorem noPair_append {a : Char} {u v : List Char} (hu : a ∉ u)
    (hv : hasSub [a, a] v = false) : hasSub [a, a] (u ++ v) = false := by
  induction u with
  | nil => simpa using hv
  | cons b bs ih =>
    rw [List.cons_append, hasSub]
    refine Bool.or_eq_false_iff.2
      ⟨?_, ih (fun hm => hu (List.mem_cons_of_mem _ hm))⟩
    have hb : ¬ (a = b) := fun h => hu (h ▸ List.mem_cons_self _ _)
    simp [List.isPrefixOf, hb]

/-- A replacement with a nonempty target not containing `a` cannot put an `a`
at the front of the output unless the input already started with one. -/
theorem head_keep_pyReplace {a : Char} (src dst : List Char) (hdst : a ∉ dst)
    (hne : dst ≠ []) : ∀ cs : List Char,
    ([a] : List Char).isPrefixOf cs = false →
    ([a] : List Char).isPrefixOf (pyReplace src dst cs) = false := by
  intro cs hcs
  cases src with
  | nil => rw [pyReplace.eq_1]; exact hcs
  | cons s0 sr =>
    cases cs with
    | nil => rw [pyReplace.eq_2]; rfl
    | cons e es =>
      have he : ¬ (a = e) := by
        simp [List.isPrefixOf] at hcs
        exact hcs
      by_cases hm : s0 = e ∧ sr.isPrefixOf es
      · rw [pyReplace.eq_3, if_pos hm]
        cases dst with
        | nil => exact absurd rfl hne
        | cons d0 ds =>
          have hd0 : ¬ (a = d0) := fun h => hdst (h ▸ List.mem_cons_self _ _)
          rw [List.cons_append]
          simp [List.isPrefixOf, hd0]
      · rw [pyReplace.eq_3, if_neg hm]
        simp [List.isPrefixOf, he]

/-- Replacing double-`a` by a single character `d ≠ a` leaves no double-`a`
in the output. -/
theorem noPair_self (a d : Char) (hd : d ≠ a) :
    ∀ t : List Char, hasSub [a, a] (pyReplace [a, a] [d] t) = false
  | [] => by rw [pyReplace.eq_2]; rfl
  | c :: cs => by
    by_cases hm : a = c ∧ ([a] : List Char).isPrefixOf cs
    · rw [pyReplace.eq_3, if_pos hm]
      have ih := noPair_self a d hd (cs.drop 1)
      rw [List.singleton_append, hasSub]
      refine Bool.or_eq_false_iff.2 ⟨?_, ih⟩
      have hda : ¬ (a = d) := fun h => hd h.symm
      simp [List.isPrefixOf, hda]
    · rw [pyReplace.eq_3, if_neg hm]
      have ih := noPair_self a d hd cs
      rw [hasSub]
      refine Bool.or_eq_false_iff.2 ⟨?_, ih⟩
      by_cases hc : a = c
      · have hpre : ([a] : List Char).isPrefixOf cs = false :=
          bool_eq_false_of_not (fun hp => hm ⟨hc, hp⟩)
        have hR := head_keep_pyReplace [a, a] [d]
          (fun h => hd (List.mem_singleton.1 h).symm) (by simp) cs hpre
        simp [List.isPrefixOf, hR]
      · simp [List.isPrefixOf, hc]
termination_by t => t.length
decreasing_by
  · simp only [List.length_drop, List.length_cons]; omega
  · simp only [List.length_cons]; omega

/-- A replacement with a nonempty target not containing `a` preserves the
absence of double-`a` substrings. -/
theorem noPair_preserved {a : Char} : ∀ src dst t : List Char, a ∉ dst →
    dst ≠ [] → hasSub [a, a] t = false →
    hasSub [a, a] (pyReplace src dst t) = false := by
  intro src dst t
  induction src, dst, t using pyReplace.induct with
  | case1 d t =>
    intro _ _ ht
    rw [pyReplace.eq_1]
    exact ht
  | case2 s0 sr d =>
    intro _ _ _
    rw [pyReplace.eq_2]
    rfl
  | case3 s0 sr d c cs hm ih =>
    intro hdst hne ht
    rw [pyReplace.eq_3, if_pos hm]
    rw [hasSub, Bool.or_eq_false_iff] at ht
    have hdrop : hasSub [a, a] (cs.drop sr.length) = false := by
      by_cases hx : hasSub [a, a] (cs.drop sr.length) = true
      · rw [hasSub_of_drop cs sr.length hx] at ht
        exact absurd ht.2 (by simp)
      · exact bool_eq_false_of_not hx
    exact noPair_append hdst (ih hdst hne hdrop)
  | case4 s0 sr d c cs hm ih =>
    intro hdst hne ht
    rw [pyReplace.eq_3, if_neg hm]
    rw [hasSub, Bool.or_eq_false_iff] at ht
    rw [hasSub]
    refine Bool.or_eq_false_iff.2 ⟨?_, ih hdst hne ht.2⟩
    by_cases hc : a = c
    · subst hc
      have h1 := ht.1
      simp [List.isPrefixOf] at h1
      have hpre : ([a] : List Char).isPrefixOf cs = false := h1
      have hR := head_keep_pyReplace (s0 :: sr) d hdst hne cs hpre
      simp [List.isPrefixOf, hR]
    · simp [List.isPrefixOf, hc]

/-- Every single-character replacement source of the default pipeline is
absent from the pipeline's output: its (last) removing step deletes it and no
later step reintroduces it. -/
theorem puSources_absent (c : Char) (hc : c ∈ puSources) (x : List Char) :
    c ∉ applySteps (cleanupSteps ++ punctSteps) x := by
  have hcases : c = '\uFEFF' ∨ c = '\uFFFE' ∨ c = '\u2060' ∨ c = '\u00AD' ∨ c = '\u200B' ∨ c = '\u00A0' ∨ c = '\u200C' ∨ c = '\u200D' ∨ c = '\u201E' ∨ c = '\u201C' ∨ c = '\u201D' ∨ c = '\u2013' ∨ c = '\u2014' ∨ c = '\u00B4' ∨ c = '\u2018' ∨ c = '\u201A' ∨ c = '\u2019' ∨ c = '\u2026' := by
    simpa [puSources] using hc
  rcases hcases with rfl | rfl | rfl | rfl | rfl | rfl | rfl | rfl | rfl | rfl | rfl | rfl | rfl | rfl | rfl | rfl | rfl | rfl
  · exact removed_absent_split
      ([.repl ['\uFEFF'] [],
              .repl ['\uFFFE'] [],
              .repl ['\u2060'] [],
              .repl ['\u00AD'] [],
              .repl ['\u200B'] [' '],
              .repl ['\u00A0'] [' '],
              .repl ['\u200C'] [],
              .repl ['\u200D'] []])
      ([.repl ['\u201E'] [dquote],
              .repl ['\u201C'] [dquote],
              .repl ['\u201D'] [dquote],
              .repl ['\u2013'] ['-'],
              .repl ['\u2014'] [' ', '-', ' '],
              .repl ['\u00B4'] [apos],
              .repl ['\u2018'] [apos],
              .repl ['\u201A'] [apos],
              .repl ['\u2019'] [apos],
              .repl [apos, apos] [dquote],
              .repl ['\u00B4', '\u00B4'] [dquote],
              .repl ['\u2026'] ['.', '.', '.']]) rfl (by decide) (by decide)
  · exact removed_absent_split
      ([.repl ['\uFEFF'] []])
      ([.repl ['\u2060'] [],
              .repl ['\u00AD'] [],
              .repl ['\u200B'] [' '],
              .repl ['\u00A0'] [' '],
              .repl ['\u200C'] [],
              .repl ['\u200D'] [],
              .repl ['\uFEFF'] [],
              .repl ['\u201E'] [dquote],
              .repl ['\u201C'] [dquote],
              .repl ['\u201D'] [dquote],
              .repl ['\u2013'] ['-'],
              .repl ['\u2014'] [' ', '-', ' '],
              .repl ['\u00B4'] [apos],
              .repl ['\u2018'] [apos],
              .repl ['\u201A'] [apos],
              .repl ['\u2019'] [apos],
              .repl [apos, apos] [dquote],
              .repl ['\u00B4', '\u00B4'] [dquote],
              .repl ['\u2026'] ['.', '.', '.']]) rfl (by decide) (by decide)
  · exact removed_absent_split
      ([.repl ['\uFEFF'] [],
              .repl ['\uFFFE'] []])
      ([.repl ['\u00AD'] [],
              .repl ['\u200B'] [' '],
              .repl ['\u00A0'] [' '],
              .repl ['\u200C'] [],
              .repl ['\u200D'] [],
              .repl ['\uFEFF'] [],
              .repl ['\u201E'] [dquote],
              .repl ['\u201C'] [dquote],
              .repl ['\u201D'] [dquote],
              .repl ['\u2013'] ['-'],
              .repl ['\u2014'] [' ', '-', ' '],
              .repl ['\u00B4'] [apos],
              .repl ['\u2018'] [apos],
              .repl ['\u201A'] [apos],
              .repl ['\u2019'] [apos],
              .repl [apos, apos] [dquote],
              .repl ['\u00B4', '\u00B4'] [dquote],
              .repl ['\u2026'] ['.', '.', '.']]) rfl (by decide) (by decide)
  · exact removed_absent_split
      ([.repl ['\uFEFF'] [],
              .repl ['\uFFFE'] [],
              .repl ['\u2060'] []])
      ([.repl ['\u200B'] [' '],
              .repl ['\u00A0'] [' '],
              .repl ['\u200C'] [],
              .repl ['\u200D'] [],
              .repl ['\uFEFF'] [],
              .repl ['\u201E'] [dquote],
              .repl ['\u201C'] [dquote],
              .repl ['\u201D'] [dquote],
              .repl ['\u2013'] ['-'],
              .repl ['\u2014'] [' ', '-', ' '],
              .repl ['\u00B4'] [apos],
              .repl ['\u2018'] [apos],
              .repl ['\u201A'] [apos],
              .repl ['\u2019'] [apos],
              .repl [apos, apos] [dquote],
              .repl ['\u00B4', '\u00B4'] [dquote],
              .repl ['\u2026'] ['.', '.', '.']]) rfl (by decide) (by decide)
  · exact removed_absent_split
      ([.repl ['\uFEFF'] [],
              .repl ['\uFFFE'] [],
              .repl ['\u2060'] [],
              .repl ['\u00AD'] []])
      ([.repl ['\u00A0'] [' '],
              .repl ['\u200C'] [],
              .repl ['\u200D'] [],
              .repl ['\uFEFF'] [],
              .repl ['\u201E'] [dquote],
              .repl ['\u201C'] [dquote],
              .repl ['\u201D'] [dquote],
              .repl ['\u2013'] ['-'],
              .repl ['\u2014'] [' ', '-', ' '],
              .repl ['\u00B4'] [apos],
              .repl ['\u2018'] [apos],
              .repl ['\u201A'] [apos],
              .repl ['\u2019'] [apos],
              .repl [apos, apos] [dquote],
              .repl ['\u00B4', '\u00B4'] [dquote],
              .repl ['\u2026'] ['.', '.', '.']]) rfl (by decide) (by decide)
  · exact removed_absent_split
      ([.repl ['\uFEFF'] [],
              .repl ['\uFFFE'] [],
              .repl ['\u2060'] [],
              .repl ['\u00AD'] [],
              .repl ['\u200B'] [' ']])
      ([.repl ['\u200C'] [],
              .repl ['\u200D'] [],
              .repl ['\uFEFF'] [],
              .repl ['\u201E'] [dquote],
              .repl ['\u201C'] [dquote],
              .repl ['\u201D'] [dquote],
              .repl ['\u2013'] ['-'],
              .repl ['\u2014'] [' ', '-', ' '],
              .repl ['\u00B4'] [apos],
              .repl ['\u2018'] [apos],
              .repl ['\u201A'] [apos],
              .repl ['\u2019'] [apos],
              .repl [apos, apos] [dquote],
              .repl ['\u00B4', '\u00B4'] [dquote],
              .repl ['\u2026'] ['.', '.', '.']]) rfl (by decide) (by decide)
  · exact removed_absent_split
      ([.repl ['\uFEFF'] [],
              .repl ['\uFFFE'] [],
              .repl ['\u2060'] [],
              .repl ['\u00AD'] [],
              .repl ['\u200B'] [' '],
              .repl ['\u00A0'] [' ']])
      ([.repl ['\u200D'] [],
              .repl ['\uFEFF'] [],
              .repl ['\u201E'] [dquote],
              .repl ['\u201C'] [dquote],
              .repl ['\u201D'] [dquote],
              .repl ['\u2013'] ['-'],
              .repl ['\u2014'] [' ', '-', ' '],
              .repl ['\u00B4'] [apos],
              .repl ['\u2018'] [apos],
              .repl ['\u201A'] [apos],
              .repl ['\u2019'] [apos],
              .repl [apos, apos] [dquote],
              .repl ['\u00B4', '\u00B4'] [dquote],
              .repl ['\u2026'] ['.', '.', '.']]) rfl (by decide) (by decide)
  · exact removed_absent_split
      ([.repl ['\uFEFF'] [],
              .repl ['\uFFFE'] [],
              .repl ['\u2060'] [],
              .repl ['\u00AD'] [],
              .repl ['\u200B'] [' '],
              .repl ['\u00A0'] [' '],
              .repl ['\u200C'] []])
      ([.repl ['\uFEFF'] [],
              .repl ['\u201E'] [dquote],
              .repl ['\u201C'] [dquote],
              .repl ['\u201D'] [dquote],
              .repl ['\u2013'] ['-'],
              .repl ['\u2014'] [' ', '-', ' '],
              .repl ['\u00B4'] [apos],
              .repl ['\u2018'] [apos],
              .repl ['\u201A'] [apos],
              .repl ['\u2019'] [apos],
              .repl [apos, apos] [dquote],
              .repl ['\u00B4', '\u00B4'] [dquote],
              .repl ['\u2026'] ['.', '.', '.']]) rfl (by decide) (by decide)
  · exact removed_absent_split
      ([.repl ['\uFEFF'] [],
              .repl ['\uFFFE'] [],
              .repl ['\u2060'] [],
              .repl ['\u00AD'] [],
              .repl ['\u200B'] [' '],
              .repl ['\u00A0'] [' '],
              .repl ['\u200C'] [],
              .repl ['\u200D'] [],
              .repl ['\uFEFF'] []])
      ([.repl ['\u201C'] [dquote],
              .repl ['\u201D'] [dquote],
              .repl ['\u2013'] ['-'],
              .repl ['\u2014'] [' ', '-', ' '],
              .repl ['\u00B4'] [apos],
              .repl ['\u2018'] [apos],
              .repl ['\u201A'] [apos],
              .repl ['\u2019'] [apos],
              .repl [apos, apos] [dquote],
              .repl ['\u00B4', '\u00B4'] [dquote],
              .repl ['\u2026'] ['.', '.', '.']]) rfl (by decide) (by decide)
  · exact removed_absent_split
      ([.repl ['\uFEFF'] [],
              .repl ['\uFFFE'] [],
              .repl ['\u2060'] [],
              .repl ['\u00AD'] [],
              .repl ['\u200B'] [' '],
              .repl ['\u00A0'] [' '],
              .repl ['\u200C'] [],
              .repl ['\u200D'] [],
              .repl ['\uFEFF'] [],
              .repl ['\u201E'] [dquote]])
      ([.repl ['\u201D'] [dquote],
              .repl ['\u2013'] ['-'],
              .repl ['\u2014'] [' ', '-', ' '],
              .repl ['\u00B4'] [apos],
              .repl ['\u2018'] [apos],
              .repl ['\u201A'] [apos],
              .repl ['\u2019'] [apos],
              .repl [apos, apos] [dquote],
              .repl ['\u00B4', '\u00B4'] [dquote],
              .repl ['\u2026'] ['.', '.', '.']]) rfl (by decide) (by decide)
  · exact removed_absent_split
      ([.repl ['\uFEFF'] [],
              .repl ['\uFFFE'] [],
              .repl ['\u2060'] [],
              .repl ['\u00AD'] [],
              .repl ['\u200B'] [' '],
              .repl ['\u00A0'] [' '],
              .repl ['\u200C'] [],
              .repl ['\u200D'] [],
              .repl ['\uFEFF'] [],
              .repl ['\u201E'] [dquote],
              .repl ['\u201C'] [dquote]])
      ([.repl ['\u2013'] ['-'],
              .repl ['\u2014'] [' ', '-', ' '],
              .repl ['\u00B4'] [apos],
              .repl ['\u2018'] [apos],
              .repl ['\u201A'] [apos],
              .repl ['\u2019'] [apos],
              .repl [apos, apos] [dquote],
              .repl ['\u00B4', '\u00B4'] [dquote],
              .repl ['\u2026'] ['.', '.', '.']]) rfl (by decide) (by decide)
  · exact removed_absent_split
      ([.repl ['\uFEFF'] [],
              .repl ['\uFFFE'] [],
              .repl ['\u2060'] [],
              .repl ['\u00AD'] [],
              .repl ['\u200B'] [' '],
              .repl ['\u00A0'] [' '],
              .repl ['\u200C'] [],
              .repl ['\u200D'] [],
              .repl ['\uFEFF'] [],
              .repl ['\u201E'] [dquote],
              .repl ['\u201C'] [dquote],
              .repl ['\u201D'] [dquote]])
      ([.repl ['\u2014'] [' ', '-', ' '],
              .repl ['\u00B4'] [apos],
              .repl ['\u2018'] [apos],
              .repl ['\u201A'] [apos],
              .repl ['\u2019'] [apos],
              .repl [apos, apos] [dquote],
              .repl ['\u00B4', '\u00B4'] [dquote],
              .repl ['\u2026'] ['.', '.', '.']]) rfl (by decide) (by decide)
  · exact removed_absent_split
      ([.repl ['\uFEFF'] [],
              .repl ['\uFFFE'] [],
              .repl ['\u2060'] [],
              .repl ['\u00AD'] [],
              .repl ['\u200B'] [' '],
              .repl ['\u00A0'] [' '],
              .repl ['\u200C'] [],
              .repl ['\u200D'] [],
              .repl ['\uFEFF'] [],
              .repl ['\u201E'] [dquote],
              .repl ['\u201C'] [dquote],
              .repl ['\u201D'] [dquote],
              .repl ['\u2013'] ['-']])
      ([.repl ['\u00B4'] [apos],
              .repl ['\u2018'] [apos],
              .repl ['\u201A'] [apos],
              .repl ['\u2019'] [apos],
              .repl [apos, apos] [dquote],
              .repl ['\u00B4', '\u00B4'] [dquote],
              .repl ['\u2026'] ['.', '.', '.']]) rfl (by decide) (by decide)
  · exact removed_absent_split
      ([.repl ['\uFEFF'] [],
              .repl ['\uFFFE'] [],
              .repl ['\u2060'] [],
              .repl ['\u00AD'] [],
              .repl ['\u200B'] [' '],
              .repl ['\u00A0'] [' '],
              .repl ['\u200C'] [],
              .repl ['\u200D'] [],
              .repl ['\uFEFF'] [],
              .repl ['\u201E'] [dquote],
              .repl ['\u201C'] [dquote],
              .repl ['\u201D'] [dquote],
              .repl ['\u2013'] ['-'],
              .repl ['\u2014'] [' ', '-', ' ']])
      ([.repl ['\u2018'] [apos],
              .repl ['\u201A'] [apos],
              .repl ['\u2019'] [apos],
              .repl [apos, apos] [dquote],
              .repl ['\u00B4', '\u00B4'] [dquote],
              .repl ['\u2026'] ['.', '.', '.']]) rfl (by decide) (by decide)
  · exact removed_absent_split
      ([.repl ['\uFEFF'] [],
              .repl ['\uFFFE'] [],
              .repl ['\u2060'] [],
              .repl ['\u00AD'] [],
              .repl ['\u200B'] [' '],
              .repl ['\u00A0'] [' '],
              .repl ['\u200C'] [],
              .repl ['\u200D'] [],
              .repl ['\uFEFF'] [],
              .repl ['\u201E'] [dquote],
              .repl ['\u201C'] [dquote],
              .repl ['\u201D'] [dquote],
              .repl ['\u2013'] ['-'],
              .repl ['\u2014'] [' ', '-', ' '],
              .repl ['\u00B4'] [apos]])
      ([.repl ['\u201A'] [apos],
              .repl ['\u2019'] [apos],
              .repl [apos, apos] [dquote],
              .repl ['\u00B4', '\u00B4'] [dquote],
              .repl ['\u2026'] ['.', '.', '.']]) rfl (by decide) (by decide)
  · exact removed_absent_split
      ([.repl ['\uFEFF'] [],
              .repl ['\uFFFE'] [],
              .repl ['\u2060'] [],
              .repl ['\u00AD'] [],
              .repl ['\u200B'] [' '],
              .repl ['\u00A0'] [' '],
              .repl ['\u200C'] [],
              .repl ['\u200D'] [],
              .repl ['\uFEFF'] [],
              .repl ['\u201E'] [dquote],
              .repl ['\u201C'] [dquote],
              .repl ['\u201D'] [dquote],
              .repl ['\u2013'] ['-'],
              .repl ['\u2014'] [' ', '-', ' '],
              .repl ['\u00B4'] [apos],
              .repl ['\u2018'] [apos]])
      ([.repl ['\u2019'] [apos],
              .repl [apos, apos] [dquote],
              .repl ['\u00B4', '\u00B4'] [dquote],
              .repl ['\u2026'] ['.', '.', '.']]) rfl (by decide) (by decide)
  · exact removed_absent_split
      ([.repl ['\uFEFF'] [],
              .repl ['\uFFFE'] [],
              .repl ['\u2060'] [],
              .repl ['\u00AD'] [],
              .repl ['\u200B'] [' '],
              .repl ['\u00A0'] [' '],
              .repl ['\u200C'] [],
              .repl ['\u200D'] [],
              .repl ['\uFEFF'] [],
              .repl ['\u201E'] [dquote],
              .repl ['\u201C'] [dquote],
              .repl ['\u201D'] [dquote],
              .repl ['\u2013'] ['-'],
              .repl ['\u2014'] [' ', '-', ' '],
              .repl ['\u00B4'] [apos],
              .repl ['\u2018'] [apos],
              .repl ['\u201A'] [apos]])
      ([.repl [apos, apos] [dquote],
              .repl ['\u00B4', '\u00B4'] [dquote],
              .repl ['\u2026'] ['.', '.', '.']]) rfl (by decide) (by decide)
  · exact removed_absent_split
      ([.repl ['\uFEFF'] [],
              .repl ['\uFFFE'] [],
              .repl ['\u2060'] [],
              .repl ['\u00AD'] [],
              .repl ['\u200B'] [' '],
              .repl ['\u00A0'] [' '],
              .repl ['\u200C'] [],
              .repl ['\u200D'] [],
              .repl ['\uFEFF'] [],
              .repl ['\u201E'] [dquote],
              .repl ['\u201C'] [dquote],
              .repl ['\u201D'] [dquote],
              .repl ['\u2013'] ['-'],
              .repl ['\u2014'] [' ', '-', ' '],
              .repl ['\u00B4'] [apos],
              .repl ['\u2018'] [apos],
              .repl ['\u201A'] [apos],
              .repl ['\u2019'] [apos],
              .repl [apos, apos] [dquote],
              .repl ['\u00B4', '\u00B4'] [dquote]])
      ([]) rfl (by decide) (by decide)

theorem baseSteps_default (l : ILang) :
    baseSteps l {} = cleanupSteps ++ punctSteps := by
  rw [baseSteps, baseTailSteps, nasalSteps, numeralSteps]
  rw [if_neg (show ¬ (({} : Config).do_normalize_chandras = true) by decide)]
  rw [if_neg (show ¬ (({} : Config).nasals_mode = "to_anusvaara_strict") by decide)]
  rw [if_neg (show ¬ (({} : Config).nasals_mode = "to_anusvaara_relaxed") by decide)]
  rw [if_neg (show ¬ (({} : Config).nasals_mode = "to_nasal_consonants") by decide)]
  rw [if_neg (show ¬ (({} : Config).do_normalize_vowel_ending = true) by decide)]
  rw [if_neg (show ¬ (({} : Config).do_normalize_numerals = true) by decide)]
  rw [if_neg (show ¬ (({} : Config).convert_numerals_to_native = true) by decide)]
  simp

/-- The default pipeline's output has no doubled apostrophe: the
apostrophe-pair step removes them and the two later steps preserve that. -/
theorem default_pass_noPair (x : List Char) :
    hasSub [apos, apos] (applySteps (cleanupSteps ++ punctSteps) x) = false := by
  rw [show cleanupSteps ++ punctSteps
      = ([.repl ['﻿'] [], .repl ['￾'] [], .repl ['⁠'] [],
         .repl ['­'] [], .repl ['​'] [' '], .repl [' '] [' '],
         .repl ['‌'] [], .repl ['‍'] [], .repl ['﻿'] [],
         .repl ['„'] [dquote], .repl ['“'] [dquote],
         .repl ['”'] [dquote], .repl ['–'] ['-'],
         .repl ['—'] [' ', '-', ' '], .repl ['´'] [apos],
         .repl ['‘'] [apos], .repl ['‚'] [apos],
         .repl ['’'] [apos]]
        ++ [.repl [apos, apos] [dquote], .repl ['´', '´'] [dquote],
            .repl ['…'] ['.', '.', '.']] : List Step) from rfl,
    applySteps_append]
  simp only [applySteps, List.foldl_cons, List.foldl_nil, applyStep]
  exact noPair_preserved _ _ _ (by decide) (by decide)
    (noPair_preserved _ _ _ (by decide) (by decide)
      (noPair_self apos dquote (by decide) _))

/-- A second run of the default pipeline is the identity on any text with no
pipeline source character and no doubled apostrophe. -/
theorem second_pass_id (y : List Char) (habs : ∀ c ∈ puSources, c ∉ y)
    (hpair : hasSub [apos, apos] y = false) :
    applySteps (cleanupSteps ++ punctSteps) y = y := by
  have hq : hasSub ['´', '´'] y = false :=
    bool_eq_false_of_not
      (fun h => habs '´' (by decide) (mem_of_hasSub h '´' (by decide)))
  simp only [cleanupSteps, punctSteps, List.cons_append, List.nil_append,
    applySteps, List.foldl_cons, List.foldl_nil, applyStep]
  rw [pyReplace_eq_self (hasSub_single_of_not_mem (habs '\uFEFF' (by decide)))]
  rw [pyReplace_eq_self (hasSub_single_of_not_mem (habs '\uFFFE' (by decide)))]
  rw [pyReplace_eq_self (hasSub_single_of_not_mem (habs '\u2060' (by decide)))]
  rw [pyReplace_eq_self (hasSub_single_of_not_mem (habs '\u00AD' (by decide)))]
  rw [pyReplace_eq_self (hasSub_single_of_not_mem (habs '\u200B' (by decide)))]
  rw [pyReplace_eq_self (hasSub_single_of_not_mem (habs '\u00A0' (by decide)))]
  rw [pyReplace_eq_self (hasSub_single_of_not_mem (habs '\u200C' (by decide)))]
  rw [pyReplace_eq_self (hasSub_single_of_not_mem (habs '\u200D' (by decide)))]
  rw [pyReplace_eq_self (hasSub_single_of_not_mem (habs '\uFEFF' (by decide)))]
  rw [pyReplace_eq_self (hasSub_single_of_not_mem (habs '\u201E' (by decide)))]
  rw [pyReplace_eq_self (hasSub_single_of_not_mem (habs '\u201C' (by decide)))]
  rw [pyReplace_eq_self (hasSub_single_of_not_mem (habs '\u201D' (by decide)))]
  rw [pyReplace_eq_self (hasSub_single_of_not_mem (habs '\u2013' (by decide)))]
  rw [pyReplace_eq_self (hasSub_single_of_not_mem (habs '\u2014' (by decide)))]
  rw [pyReplace_eq_self (hasSub_single_of_not_mem (habs '\u00B4' (by decide)))]
  rw [pyReplace_eq_self (hasSub_single_of_not_mem (habs '\u2018' (by decide)))]
  rw [pyReplace_eq_self (hasSub_single_of_not_mem (habs '\u201A' (by decide)))]
  rw [pyReplace_eq_self (hasSub_single_of_not_mem (habs '\u2019' (by decide)))]
  rw [pyReplace_eq_self hpair]
  rw [pyReplace_eq_self hq]
  rw [pyReplace_eq_self (hasSub_single_of_not_mem (habs '\u2026' (by decide)))]

/-- Claim C1 (amended): with the default configuration (all optional stages
off), `normalize` of the `BaseNormalizer` family is idempotent for every
language: only the cleanup and punctuation replacements run, every replacement
source is erased by the first pass and never reintroduced, so the second pass
is the identity. -/
theorem c1_default_idempotent (l : ILang) (x : List Char) :
    baseNormalize l {} (baseNormalize l {} x) = baseNormalize l {} x := by
  rw [baseNormalize, baseNormalize, baseSteps_default l]
  exact second_pass_id _ (fun c hc => puSources_absent c hc x)
    (default_pass_noPair x)

unseal pyReplace subPat subEnd in
/-- Claim C1, counterexample to the unrestricted statement: for Hindi with
`nasals_mode='to_anusvaara_relaxed'` and `do_normalize_vowel_ending=True`,
normalizing the single letter nga (U+0919) appends a halant (first pass), and
the second pass rewrites the resulting nga+halant to an anusvara, so
`normalize(normalize(x)) != normalize(x)`. -/
theorem c1_idempotence_fails :
    baseNormalize ILang.hi relaxedVowelCfg ['ङ'] = ['ङ', '्']
    ∧ baseNormalize ILang.hi relaxedVowelCfg
        (baseNormalize ILang.hi relaxedVowelCfg ['ङ']) = ['ं']
    ∧ baseNormalize ILang.hi relaxedVowelCfg
        (baseNormalize ILang.hi relaxedVowelCfg ['ङ'])
      ≠ baseNormalize ILang.hi relaxedVowelCfg ['ङ'] := by
  refine ⟨by decide, by decide, by decide⟩

end IndicNLP
